import Mathlib

/-!
# Verification of the promptweaver streaming section parser

A shallow embedding of the streaming XML-lite section parser of the
promptweaver repository (`engine.go`, `errors.go`), together with proofs
and refutations of the frozen behavioural claims.

Modelling conventions:
* Go byte strings are modelled as `List Char` (every byte the parser
  inspects is ASCII; Go's `strings.ToLower` is modelled by the ASCII
  `lowerChar`).
* The Go maps `map[string]string` (registry, attributes) are modelled as
  association lists whose insert overwrites an existing key, mirroring map
  assignment.
* `HandlerSink.Emit` delivers each event synchronously to the sink; the
  observable behaviour is the ordered trace of emitted events, recorded in
  the `events` field of the parser state.
* Go's `io.Reader`/`bufio.Reader` chunking is modelled by an explicit list
  of chunks fed to the parser one after another, exactly as
  `Engine.ProcessStream` does with each successful `Read`.
-/

/-- `isSpace` from engine.go: `b == ' ' || b == '\n' || b == '\t' || b == '\r'`. -/
def isSpace (b : Char) : Bool :=
  b = ' ' || b = '\n' || b = '\t' || b = '\r'

/-- `isNameChar` from engine.go: ASCII letters, digits, underscore, hyphen. -/
def isNameChar (b : Char) : Bool :=
  ('a' ≤ b && b ≤ 'z') || ('A' ≤ b && b ≤ 'Z') || ('0' ≤ b && b ≤ '9') || b = '_' || b = '-'

/-- `isAttrNameChar` from engine.go: same as `isNameChar`. -/
def isAttrNameChar (b : Char) : Bool := isNameChar b

/-- ASCII lower-casing of one character, modelling Go's `strings.ToLower`
on the ASCII input the parser compares (A–Z becomes a–z). -/
def lowerChar (c : Char) : Char :=
  if 'A' ≤ c && c ≤ 'Z' then Char.ofNat (c.toNat + 32) else c

/-- `strings.ToLower` on a byte string. -/
def toLowerStr (s : List Char) : List Char := s.map lowerChar

/-- `strings.EqualFold` (case-insensitive equality) on the ASCII strings
the parser compares. -/
def eqFold (a b : List Char) : Bool := toLowerStr a = toLowerStr b

/-- `strings.TrimSpace`: drop leading and trailing whitespace. -/
def trimSpace (s : List Char) : List Char :=
  ((s.dropWhile isSpace).reverse.dropWhile isSpace).reverse

/-- `bytes.IndexByte`: index of the first occurrence of `b`, `none` for Go's `-1`. -/
def bytesIndexOf (b : Char) : List Char → Option Nat
  | [] => none
  | c :: cs =>
    if c = b then some 0
    else match bytesIndexOf b cs with
      | some i => some (i + 1)
      | none => none

/-- `Position` from errors.go: 1-based line and column. -/
structure Position where
  line : Nat
  column : Nat
deriving DecidableEq, Repr

/-- Association-list lookup, modelling Go map reads. -/
def lookupMap (m : List (List Char × List Char)) (k : List Char) : Option (List Char) :=
  match m with
  | [] => none
  | (k', v) :: rest => if k' = k then some v else lookupMap rest k

/-- Association-list insert that overwrites an existing key, modelling Go
map assignment. -/
def insertMap (m : List (List Char × List Char)) (k v : List Char) :
    List (List Char × List Char) :=
  match m with
  | [] => [(k, v)]
  | (k', v') :: rest => if k' = k then (k, v) :: rest else (k', v') :: insertMap rest k v

/-- Attribute maps: key–value pairs with overwriting insert (Go
`map[string]string`). -/
abbrev AttrMap := List (List Char × List Char)

/-- `extractContext` from errors.go: a numbered snippet of the recent
content around the error position (lines `pos.Line-3 .. pos.Line+1`, the
error line marked and a column pointer added when it fits). -/
def extractContext (content : List Char) (pos : Position) : List Char :=
  if content = [] then []
  else
    let lines := content.splitOn '\n'
    if lines.length < pos.line then content
    else
      let startLine := pos.line - 3
      let endLine := min (lines.length - 1) (pos.line + 1)
      ((List.range' startLine (endLine + 1 - startLine)).map (fun i =>
        let lineNum := i + 1
        let lineTxt := lines.getD i []
        if lineNum = pos.line then
          ("-> ".toList ++ (toString lineNum).toList ++ ": ".toList ++ lineTxt ++ ['\n'])
            ++ (if pos.column ≤ lineTxt.length + 1 then
                  List.replicate (pos.column + 5) ' ' ++ ['^', '\n']
                else [])
        else "   ".toList ++ (toString lineNum).toList ++ ": ".toList ++ lineTxt ++ ['\n'])).flatten

/-- The common payload of every parse error (`ParseError` in errors.go):
position at construction, message, and the context snippet built by
`extractContext` from the recently consumed text. -/
structure ParseErrorBase where
  pos : Position
  message : String
  context : List Char
deriving DecidableEq, Repr

/-- The closed sum of error kinds of errors.go, plus the plain
`errors.New("nil registry")` error returned by `Engine.ProcessStream`.
Each constructor mirrors one `*Error` struct and its extra fields. -/
inductive PwError where
  | malformedTag (base : ParseErrorBase) (tagName : List Char)
  | attributeParsing (base : ParseErrorBase) (tagName : List Char) (attributeName : List Char)
  | unmatchedTag (base : ParseErrorBase) (tagName : List Char)
  | validation (base : ParseErrorBase) (sectionName : List Char)
  | nilRegistry
deriving DecidableEq, Repr

/-- `NewMalformedTagError`. -/
def NewMalformedTagError (pos : Position) (tagName : List Char) (message : String)
    (context : List Char) : PwError :=
  .malformedTag ⟨pos, message, extractContext context pos⟩ tagName

/-- `NewAttributeParsingError`. -/
def NewAttributeParsingError (pos : Position) (tagName attrName : List Char)
    (message : String) (context : List Char) : PwError :=
  .attributeParsing ⟨pos, message, extractContext context pos⟩ tagName attrName

/-- `NewUnmatchedTagError` (its message is fixed by the constructor). -/
def NewUnmatchedTagError (pos : Position) (tagName : List Char)
    (context : List Char) : PwError :=
  .unmatchedTag ⟨pos, "closing tag has no matching opening tag", extractContext context pos⟩ tagName

/-- `NewValidationError`. -/
def NewValidationError (pos : Position) (sectionName : List Char) (message : String)
    (context : List Char) : PwError :=
  .validation ⟨pos, message, extractContext context pos⟩ sectionName

/-- The `Position` carried by an error (every constructor except
`nilRegistry` has one). -/
def PwError.errPos : PwError → Option Position
  | .malformedTag b _ => some b.pos
  | .attributeParsing b _ _ => some b.pos
  | .unmatchedTag b _ => some b.pos
  | .validation b _ => some b.pos
  | .nilRegistry => none

/-- `SectionPlugin`: a canonical name with aliases. -/
structure SectionPlugin where
  name : List Char
  aliases : List (List Char)

/-- `Registry`: the alias → canonical-name map. -/
structure Registry where
  canon : List (List Char × List Char)
deriving DecidableEq, Repr

/-- `NewRegistry`. -/
def NewRegistry : Registry := ⟨[]⟩

/-- `Registry.Register`: an empty `Name` is a no-op; otherwise the
lower-cased name maps to itself and every non-empty alias (lower-cased)
maps to the canonical name. -/
def Registry.register (r : Registry) (p : SectionPlugin) : Registry :=
  if p.name = [] then r
  else
    let canon := toLowerStr p.name
    let m := insertMap r.canon canon canon
    ⟨p.aliases.foldl (fun m a => if a = [] then m else insertMap m (toLowerStr a) canon) m⟩

/-- `Registry.Canonical`: case-insensitive lookup of the canonical name. -/
def Registry.canonical (r : Registry) (name : List Char) : Option (List Char) :=
  lookupMap r.canon (toLowerStr name)

/-- `Registry.IsAllowed`. -/
def Registry.isAllowed (r : Registry) (name : List Char) : Bool :=
  (r.canonical name).isSome

/-- `SectionEvent`: canonical name, attributes of the opening tag, body
content. -/
structure SectionEvent where
  name : List Char
  attrs : AttrMap
  content : List Char
deriving DecidableEq, Repr

/-- A content validator (the `Validator` interface): a function of
section name, content and position, `none` meaning the content is valid. -/
abbrev Validator := List Char → List Char → Position → Option PwError

/-- `ValidatorRegistry`: validators per section name, kept in
registration order. -/
abbrev ValidatorRegistry := List (List Char × List Validator)

/-- `ValidatorRegistry.ValidateSection`: run the validators registered for
the name in order, returning the first failure (`canonicalName` in
validator.go is the identity, so lookup is by the exact name). -/
def validateSection (vr : ValidatorRegistry) (sectionName content : List Char)
    (pos : Position) : Option PwError :=
  match vr with
  | [] => none
  | (n, vs) :: rest =>
    if n = sectionName then
      (vs.map (fun v => v sectionName content pos)).foldl (fun acc r =>
        match acc with
        | some e => some e
        | none => r) none
    else validateSection rest sectionName content pos

/-- `RecoveryMode`. -/
inductive RecoveryMode where
  | strictMode
  | continueMode
deriving DecidableEq, Repr

/-- `EngineOptions`: recovery mode and optional custom error handler. -/
structure EngineOptions where
  recoveryMode : RecoveryMode
  errorHandler : Option (PwError → Bool)

/-- `DefaultEngineOptions`: strict, no handler. -/
def DefaultEngineOptions : EngineOptions := ⟨.strictMode, none⟩

/-- `WithContinueMode`. -/
def WithContinueMode : EngineOptions := ⟨.continueMode, none⟩

/-- `WithErrorHandler`: strict mode with a custom handler. -/
def WithErrorHandler (h : PwError → Bool) : EngineOptions := ⟨.strictMode, some h⟩

/-- `element`: the active open section (original spelling, canonical name,
attributes, accumulating body). -/
structure Element where
  name : List Char
  canon : List Char
  attrs : AttrMap
  body : List Char
deriving DecidableEq, Repr

/-- `parser`: rolling buffer, at most one active section, position,
recovery configuration, validators, error-context window, and the ordered
trace of events delivered to the sink. -/
structure Parser where
  reg : Registry
  buf : List Char
  active : Option Element
  pos : Position
  recoveryMode : RecoveryMode
  errorHandler : Option (PwError → Bool)
  validators : ValidatorRegistry
  lastContent : List Char
  events : List SectionEvent

/-- `newParser` (with the engine's validators installed, as
`Engine.ProcessStream` does right after constructing the parser). -/
def newParser (reg : Registry) (options : EngineOptions) (validators : ValidatorRegistry) :
    Parser :=
  { reg := reg, buf := [], active := none, pos := ⟨1, 1⟩,
    recoveryMode := options.recoveryMode, errorHandler := options.errorHandler,
    validators := validators, lastContent := [], events := [] }

/-- `parser.feed`. -/
def Parser.feed (p : Parser) (b : List Char) : Parser := { p with buf := p.buf ++ b }

/-- `updateLastContent`: sliding window of the last 1000 consumed
characters. -/
def updateLastContent (lc s : List Char) : List Char :=
  let l := lc ++ s
  if 1000 < l.length then l.drop (l.length - 1000) else l

/-- Position advance over consumed characters: newline starts a new line,
anything else moves one column. -/
def advancePos (pos : Position) (consumed : List Char) : Position :=
  consumed.foldl (fun q c => if c = '\n' then ⟨q.line + 1, 1⟩ else ⟨q.line, q.column + 1⟩) pos

/-- `parser.consume`: record the consumed prefix in the context window,
advance the position over it, and drop it from the buffer. -/
def Parser.consume (p : Parser) (n : Nat) : Parser :=
  let consumed := p.buf.take n
  { p with lastContent := updateLastContent p.lastContent consumed,
           pos := advancePos p.pos consumed,
           buf := p.buf.drop n }

/-! ## Tag tokenization (`parseTagToken` and helpers) -/

/-- `tagTokenKind`. -/
inductive TagTokenKind where
  | tokenOpen
  | tokenClose
  | tokenSelfClose
deriving DecidableEq, Repr

/-- `tagToken`. -/
structure TagToken where
  kind : TagTokenKind
  name : List Char
  attrs : AttrMap
deriving DecidableEq, Repr

/-- The result of `parseTagToken` `(consumedBytes, token, ok, error)`
folded into one sum: `incomplete` is `ok=false, err=nil` (wait for more
input, nothing consumed), `errTok` is a failure with the partial consumed
length, `tok` is success with the consumed length. -/
inductive TokResult where
  | incomplete
  | errTok (consumed : Nat) (e : PwError)
  | tok (consumed : Nat) (t : TagToken)
deriving Repr

/-- The quoted-value scan of `parseTagToken`: characters up to the closing
quote, a backslash protecting (and keeping) the following character;
`none` when the buffer ends before the closing quote (incomplete).
Returns (value characters, rest after the closing quote). -/
def scanQuoted (q : Char) : List Char → Option (List Char × List Char)
  | [] => none
  | c :: cs =>
    if c = q then some ([], cs)
    else if c = '\\' then
      match cs with
      | [] => none
      | d :: ds =>
        match scanQuoted q ds with
        | some (v, r) => some (c :: d :: v, r)
        | none => none
    else
      match scanQuoted q cs with
      | some (v, r) => some (c :: v, r)
      | none => none

/-- Unfolding equation of `scanQuoted` on a non-empty buffer. -/
theorem scanQuoted_cons (q c : Char) (cs : List Char) : scanQuoted q (c :: cs) =
    (if c = q then some ([], cs)
    else if c = '\\' then
      match cs with
      | [] => none
      | d :: ds =>
        match scanQuoted q ds with
        | some (v, r) => some (c :: d :: v, r)
        | none => none
    else
      match scanQuoted q cs with
      | some (v, r) => some (c :: v, r)
      | none => none) := by
  conv_lhs => rw [scanQuoted.eq_def]

/-- After a successful quoted scan the rest is strictly shorter than the
input (the closing quote is consumed). -/
theorem scanQuoted_rest_lt (q : Char) (l : List Char) :
    ∀ v r, scanQuoted q l = some (v, r) → r.length < l.length := by
  match l with
  | [] => intro v r h; simp [scanQuoted] at h
  | c :: cs =>
    intro v r h
    rw [scanQuoted_cons] at h
    by_cases hq : c = q
    · rw [if_pos hq] at h
      simp only [Option.some.injEq, Prod.mk.injEq] at h
      simp [← h.2]
    · rw [if_neg hq] at h
      by_cases hb : c = '\\'
      · rw [if_pos hb] at h
        match cs with
        | [] => simp at h
        | d :: ds =>
          simp only [] at h
          cases hrec : scanQuoted q ds with
          | none => rw [hrec] at h; simp at h
          | some vr =>
            obtain ⟨v', r'⟩ := vr
            rw [hrec] at h
            simp only [Option.some.injEq, Prod.mk.injEq] at h
            have hlt := scanQuoted_rest_lt q ds v' r' hrec
            simp [← h.2]
            omega
      · rw [if_neg hb] at h
        cases hrec : scanQuoted q cs with
        | none => rw [hrec] at h; simp at h
        | some vr =>
          obtain ⟨v', r'⟩ := vr
          rw [hrec] at h
          simp only [Option.some.injEq, Prod.mk.injEq] at h
          have hlt := scanQuoted_rest_lt q cs v' r' hrec
          simp [← h.2]
          omega
termination_by l.length

/-- The brace-balanced value scan of `parseTagToken` (`case '{'`): scan
with nested `{`/`}` and quoted substrings skipped as opaque spans.
`depth` is the current nesting depth (≥ 1). Returns (characters before
the matching closing brace, rest after it); `none` when the buffer ends
first (incomplete). -/
def scanBraced (depth : Nat) (l : List Char) : Option (List Char × List Char) :=
  match l with
  | [] => none
  | c :: cs =>
    if c = '{' then
      match scanBraced (depth + 1) cs with
      | some (v, r) => some (c :: v, r)
      | none => none
    else if c = '}' then
      if depth = 1 then some ([], cs)
      else
        match scanBraced (depth - 1) cs with
        | some (v, r) => some (c :: v, r)
        | none => none
    else if c = '"' ∨ c = '\'' then
      match h : scanQuoted c cs with
      | some (v, r) =>
        match scanBraced depth r with
        | some (v', r') => some (c :: (v ++ [c]) ++ v', r')
        | none => none
      | none => none
    else
      match scanBraced depth cs with
      | some (v, r) => some (c :: v, r)
      | none => none
termination_by l.length
decreasing_by
  all_goals simp
  all_goals try omega
  all_goals (have hlt := scanQuoted_rest_lt c cs _ _ h; omega)

/-- Unfolding equation of `scanBraced` on a non-empty buffer. -/
theorem scanBraced_cons (depth : Nat) (c : Char) (cs : List Char) :
    scanBraced depth (c :: cs) =
    (if c = '{' then
      match scanBraced (depth + 1) cs with
      | some (v, r) => some (c :: v, r)
      | none => none
    else if c = '}' then
      if depth = 1 then some ([], cs)
      else
        match scanBraced (depth - 1) cs with
        | some (v, r) => some (c :: v, r)
        | none => none
    else if c = '"' ∨ c = '\'' then
      match h : scanQuoted c cs with
      | some (v, r) =>
        match scanBraced depth r with
        | some (v', r') => some (c :: (v ++ [c]) ++ v', r')
        | none => none
      | none => none
    else
      match scanBraced depth cs with
      | some (v, r) => some (c :: v, r)
      | none => none) := by
  conv_lhs => rw [scanBraced.eq_def]

/-- After a successful braced scan the rest is strictly shorter than the
input (the closing brace is consumed). -/
theorem scanBraced_rest_lt (depth : Nat) (l : List Char) :
    ∀ v r, scanBraced depth l = some (v, r) → r.length < l.length := by
  match l with
  | [] => intro v r h; simp [scanBraced] at h
  | c :: cs =>
    intro v r h
    rw [scanBraced_cons] at h
    by_cases h1 : c = '{'
    · rw [if_pos h1] at h
      cases hrec : scanBraced (depth + 1) cs with
      | none => rw [hrec] at h; simp at h
      | some vr =>
        obtain ⟨v', r'⟩ := vr
        rw [hrec] at h
        simp only [Option.some.injEq, Prod.mk.injEq] at h
        have hlt := scanBraced_rest_lt (depth + 1) cs v' r' hrec
        simp [← h.2]
        omega
    · rw [if_neg h1] at h
      by_cases h2 : c = '}'
      · rw [if_pos h2] at h
        by_cases hd : depth = 1
        · rw [if_pos hd] at h
          simp only [Option.some.injEq, Prod.mk.injEq] at h
          simp [← h.2]
        · rw [if_neg hd] at h
          cases hrec : scanBraced (depth - 1) cs with
          | none => rw [hrec] at h; simp at h
          | some vr =>
            obtain ⟨v', r'⟩ := vr
            rw [hrec] at h
            simp only [Option.some.injEq, Prod.mk.injEq] at h
            have hlt := scanBraced_rest_lt (depth - 1) cs v' r' hrec
            simp [← h.2]
            omega
      · rw [if_neg h2] at h
        by_cases h3 : c = '"' ∨ c = '\''
        · rw [if_pos h3] at h
          cases hq : scanQuoted c cs with
          | none => rw [hq] at h; simp at h
          | some vr =>
            obtain ⟨v', r'⟩ := vr
            rw [hq] at h
            have hlt1 := scanQuoted_rest_lt c cs v' r' hq
            simp only [] at h
            cases hrec : scanBraced depth r' with
            | none => rw [hrec] at h; simp at h
            | some vr2 =>
              obtain ⟨v2, r2⟩ := vr2
              rw [hrec] at h
              simp only [Option.some.injEq, Prod.mk.injEq] at h
              have hlt2 := scanBraced_rest_lt depth r' v2 r2 hrec
              simp [← h.2]
              omega
        · rw [if_neg h3] at h
          cases hrec : scanBraced depth cs with
          | none => rw [hrec] at h; simp at h
          | some vr =>
            obtain ⟨v', r'⟩ := vr
            rw [hrec] at h
            simp only [Option.some.injEq, Prod.mk.injEq] at h
            have hlt := scanBraced_rest_lt depth cs v' r' hrec
            simp [← h.2]
            omega
termination_by l.length

/-- `dropWhile` never lengthens a list. -/
theorem length_dropWhile_le (p : Char → Bool) (l : List Char) :
    (l.dropWhile p).length ≤ l.length := by
  induction l with
  | nil => simp
  | cons c cs ih =>
    by_cases h : p c
    · simp [List.dropWhile, h]; omega
    · simp [List.dropWhile, h]

/-- The attribute loop of `parseTagToken` (its `for` loop after the tag
name), with explicit fuel: skip spaces, then either finish the tag (`>`
or `/>`), or parse one `key = value` attribute and iterate. All consumed
counts are relative to `rem`, the start of the loop iteration;
`parseTagToken` offsets them to absolute counts, matching the index `i`
of the Go code. Every iteration consumes at least one byte, so
`rem.length + 1` rounds of fuel (supplied by `parseAttrs`) always
complete; the fuel-exhaustion result is unreachable. -/
def parseAttrsF (fuel : Nat) (pos : Position) (ctx : List Char) (name : List Char)
    (attrs : AttrMap) (rem : List Char) : TokResult :=
  match fuel with
  | 0 => .incomplete
  | fuel + 1 =>
    let ws := rem.takeWhile isSpace
    match rem.dropWhile isSpace with
    | [] => .incomplete
    | c :: r2 =>
      if c = '>' then .tok (ws.length + 1) ⟨.tokenOpen, name, attrs⟩
      else if c = '/' then
        match r2 with
        | [] => .incomplete
        | d :: _ =>
          if d = '>' then .tok (ws.length + 2) ⟨.tokenSelfClose, name, attrs⟩
          else .errTok (ws.length + 1)
            (NewMalformedTagError pos name "expected '>' after '/' in self-closing tag" ctx)
      else
        match (c :: r2).takeWhile isAttrNameChar, (c :: r2).dropWhile isAttrNameChar with
        | _, [] => .incomplete
        | [], _ :: _ =>
          .errTok ws.length
            (NewMalformedTagError pos name "expected attribute name or '>' or '/>'" ctx)
        | key, c3 :: r3 =>
            let ws2 := (c3 :: r3).takeWhile isSpace
            match (c3 :: r3).dropWhile isSpace with
            | [] => .incomplete
            | e :: r5 =>
              if e ≠ '=' then
                .errTok (ws.length + key.length + ws2.length)
                  (NewAttributeParsingError pos name key "expected '=' after attribute name" ctx)
              else
                let ws3 := r5.takeWhile isSpace
                match r5.dropWhile isSpace with
                | [] => .incomplete
                | q :: r7 =>
                  if q = '"' ∨ q = '\'' then
                    match scanQuoted q r7 with
                    | none => .incomplete
                    | some (v, r8) =>
                      let attrs' := insertMap attrs (toLowerStr (trimSpace key)) v
                      let off := ws.length + key.length + ws2.length + 1 + ws3.length +
                        1 + v.length + 1
                      match parseAttrsF fuel pos ctx name attrs' r8 with
                      | .incomplete => .incomplete
                      | .errTok n e => .errTok (off + n) e
                      | .tok n t => .tok (off + n) t
                  else if q = '{' then
                    match scanBraced 1 r7 with
                    | none => .incomplete
                    | some (v, r8) =>
                      let attrs' := insertMap attrs (toLowerStr (trimSpace key))
                        ('{' :: (v ++ ['}']))
                      let off := ws.length + key.length + ws2.length + 1 + ws3.length +
                        1 + v.length + 1
                      match parseAttrsF fuel pos ctx name attrs' r8 with
                      | .incomplete => .incomplete
                      | .errTok n e => .errTok (off + n) e
                      | .tok n t => .tok (off + n) t
                  else
                    .errTok (ws.length + key.length + ws2.length + 1 + ws3.length)
                      (NewAttributeParsingError pos name key
                        "expected attribute value to start with quote or brace" ctx)

/-- The attribute loop with its adequate fuel. -/
def parseAttrs (pos : Position) (ctx : List Char) (name : List Char) (attrs : AttrMap)
    (rem : List Char) : TokResult :=
  parseAttrsF (rem.length + 1) pos ctx name attrs rem

/-- `parseTagToken`: parse one tag token from the start of `data` (which
the caller believes starts with `<`). `incomplete` is Go's
`(0, {}, false, nil)` (wait for more bytes, nothing consumed). -/
def parseTagToken (data : List Char) (pos : Position) (ctx : List Char) : TokResult :=
  match data with
  | [] => .incomplete
  | c0 :: rest =>
    if c0 ≠ '<' then .incomplete
    else
      match rest with
      | '/' :: rest2 =>
        -- closing tag
        let name := rest2.takeWhile isNameChar
        match rest2.dropWhile isNameChar with
        | [] => .incomplete
        | c2 :: r2 =>
          let ws := (c2 :: r2).takeWhile isSpace
          match (c2 :: r2).dropWhile isSpace with
          | [] => .incomplete
          | g :: _ =>
            if g ≠ '>' then
              .errTok (2 + name.length + ws.length)
                (NewMalformedTagError pos name "expected '>' after closing tag name" ctx)
            else .tok (2 + name.length + ws.length + 1) ⟨.tokenClose, name, []⟩
      | _ =>
        -- opening or self-closing tag
        match rest.takeWhile isNameChar, rest.dropWhile isNameChar with
        | _, [] => .incomplete
        | [], _ :: _ =>
          .errTok 1 (NewMalformedTagError pos [] "missing tag name after '<'" ctx)
        | name, c1 :: r1 =>
          match parseAttrs pos ctx name [] (c1 :: r1) with
          | .incomplete => .incomplete
          | .errTok n e => .errTok (1 + name.length + n) e
          | .tok n t => .tok (1 + name.length + n) t

/-- The result of `parser.parseOwnClose` `(consumedBytes, isOurClose,
complete, error)` folded into one sum: `notClose` is `(0, false, true,
nil)`, `incompleteClose` is `(0, false, false, nil)` (wait for more
bytes), `closeErr` a strict-mode error with its partial consumed length,
`closeOk` an accepted close with its consumed length. -/
inductive CloseRes where
  | notClose
  | incompleteClose
  | closeErr (consumed : Nat) (e : PwError)
  | closeOk (consumed : Nat)
deriving Repr

/-- The tail of `parser.parseOwnClose` once the closing name is accepted:
optional spaces, then the `>` (strict-mode error or non-close otherwise).
`ws` and `name` are the already-scanned space run and tag name, `r2` the
bytes after the name. -/
def parseOwnCloseGt (p : Parser) (closeName ws name : List Char) (r2 : List Char) : CloseRes :=
  let ws2 := r2.takeWhile isSpace
  match r2.dropWhile isSpace with
  | [] => .incompleteClose
  | g :: _ =>
    if g ≠ '>' then
      if p.recoveryMode = .strictMode then
        .closeErr (2 + ws.length + name.length + ws2.length)
          (NewMalformedTagError p.pos closeName
            "expected '>' after closing tag name" p.lastContent)
      else .notClose
    else .closeOk (2 + ws.length + name.length + ws2.length + 1)

/-- The alias check of `parser.parseOwnClose`: accept the scanned closing
name when its canonical name equals the active canonical name, or (when
unregistered) when it literally matches the original open spelling
case-insensitively; otherwise it is not our closing tag. -/
def parseOwnCloseName (p : Parser) (el : Element) (ws name r2 : List Char) : CloseRes :=
  let closeName := toLowerStr name
  match p.reg.canonical closeName with
  | some c =>
    if c = el.canon then parseOwnCloseGt p closeName ws name r2
    else .notClose
  | none =>
    if eqFold closeName el.name then parseOwnCloseGt p closeName ws name r2
    else .notClose

/-- `parser.parseOwnClose`: does `data` start with a closing tag that
closes the active section? Accepts any alias whose canonical name equals
the active canonical name, with a case-insensitive literal fallback
against the original open spelling. Note the `len(data) < 2` guard: a
buffer holding just `<` is reported as a complete non-close. -/
def Parser.parseOwnClose (p : Parser) (data : List Char) : CloseRes :=
  match p.active with
  | none => .notClose
  | some el =>
    match data with
    | c0 :: c1 :: rest =>
      if c0 ≠ '<' ∨ c1 ≠ '/' then .notClose
      else
        let ws := rest.takeWhile isSpace
        match rest.dropWhile isSpace with
        | [] => .incompleteClose
        | cn :: rn =>
          match (cn :: rn).takeWhile isNameChar with
          | [] =>
            if p.recoveryMode = .strictMode then
              .closeErr (2 + ws.length)
                (NewMalformedTagError p.pos [] "missing tag name after '</'" p.lastContent)
            else .notClose
          | name =>
            match (cn :: rn).dropWhile isNameChar with
            | [] => .incompleteClose
            | c2 :: r2 => parseOwnCloseName p el ws name (c2 :: r2)
    | _ => .notClose

/-! ## The drain loop (`parser.drain`), `parser.finish` and
`Engine.ProcessStream` -/

/-- Append text to the active section's body (`p.active.body.Write`). -/
def Parser.withBody (p : Parser) (el : Element) (s : List Char) : Parser :=
  { p with active := some { el with body := el.body ++ s } }

/-- One iteration of the `for` loop of `parser.drain`: either the loop
continues with an updated state (`next`, Go's `continue`), or `drain`
returns (`stop`, Go's `return`, with `none` for a nil error). -/
inductive Step where
  | next (p : Parser)
  | stop (p : Parser) (e : Option PwError)

/-- One iteration of `parser.drain`. Mirrors the loop body of engine.go
branch for branch; see `Parser.drain` for the loop itself. -/
def drainStep (p : Parser) : Step :=
  match hd : p.buf with
  | [] => .stop p none
  | _ :: _ =>
    match p.active with
    | some el =>
      -- Inside a recognized section: stream raw bytes until its close.
      match bytesIndexOf '<' p.buf with
      | none => .next ((p.withBody el p.buf).consume p.buf.length)
      | some 0 =>
        match p.parseOwnClose p.buf with
        | .closeErr consumed e =>
          if p.recoveryMode = .continueMode then .next (p.consume consumed)
          else .stop p (some e)
        | .incompleteClose => .stop p none
        | .closeOk consumed =>
          let p1 := p.consume consumed
          let content := el.body
          let sectionName := el.canon
          match validateSection p1.validators sectionName content p1.pos with
          | some err =>
            match p1.errorHandler with
            | some h =>
              if h err then .next { p1 with active := none }
              else .stop p1 (some err)
            | none =>
              if p1.recoveryMode = .strictMode then .stop p1 (some err)
              else .next { p1 with active := none }
          | none =>
            .next { p1 with
                      active := none
                      events := p1.events ++ [⟨sectionName, el.attrs, content⟩] }
        | .notClose =>
          -- Not our closing tag: the '<' (and a following '/') is literal text.
          if 2 ≤ p.buf.length ∧ p.buf.getD 1 ' ' = '/' then
            .next ((p.withBody el ['<', '/']).consume 2)
          else
            .next ((p.withBody el ['<']).consume 1)
      | some lt =>
        .next ((p.withBody el (p.buf.take lt)).consume lt)
    | none =>
      -- No active section: look for a tag opener.
      match bytesIndexOf '<' p.buf with
      | none => .stop { p with buf := [] } none
      | some 0 =>
        match parseTagToken p.buf p.pos p.lastContent with
        | .errTok consumed e =>
          if p.recoveryMode = .continueMode then .next (p.consume consumed)
          else .stop p (some e)
        | .incomplete => .stop p none
        | .tok consumed t =>
          let p1 := p.consume consumed
          match t.kind with
          | .tokenOpen =>
            match p1.reg.canonical t.name with
            | some c =>
              .next { p1 with active := some ⟨t.name, c, t.attrs, []⟩ }
            | none => .next p1
          | .tokenSelfClose =>
            match p1.reg.canonical t.name with
            | some c => .next { p1 with events := p1.events ++ [⟨c, t.attrs, []⟩] }
            | none => .next p1
          | .tokenClose =>
            if p1.recoveryMode = .strictMode then
              .stop p1 (some (NewUnmatchedTagError p1.pos t.name p1.lastContent))
            else .next p1
      | some lt => .next (p.consume lt)

/-- The `for` loop of `parser.drain`, driven by explicit fuel. Every
reachable `next` step consumes at least one buffered byte (see
`drainStep_next_lt`), so `buf.length + 1` iterations always reach a
`stop`; the fuel-exhaustion result is never reached from the states the
engine produces. -/
def drainN : Nat → Parser → Parser × Option PwError
  | 0, p => (p, none)
  | n + 1, p =>
    match drainStep p with
    | .stop q e => (q, e)
    | .next q => drainN n q

/-- `parser.drain`. -/
def Parser.drain (p : Parser) : Parser × Option PwError := drainN (p.buf.length + 1) p

/-- `parser.finish`: append leftover buffered bytes to the active body,
then auto-close the active recognized section (validating, and in
Continue mode or under an approving handler emitting even on a validation
failure). -/
def Parser.finish (p : Parser) : Parser × Option PwError :=
  let p :=
    match p.active with
    | some el => if p.buf ≠ [] then { (p.withBody el p.buf) with buf := [] }
                 else { p with buf := [] }
    | none => { p with buf := [] }
  match p.active with
  | some el =>
    if el.canon ≠ [] then
      let content := el.body
      let sectionName := el.canon
      let emit : Parser × Option PwError :=
        ({ p with
             active := none
             events := p.events ++ [⟨sectionName, el.attrs, content⟩] }, none)
      match validateSection p.validators sectionName content p.pos with
      | some err =>
        match p.errorHandler with
        | some h => if h err then emit else (p, some err)
        | none =>
          if p.recoveryMode = .strictMode then (p, some err)
          else emit
      | none => emit
    else (p, none)
  | none => (p, none)

/-- The read loop of `Engine.ProcessStream` before end-of-stream: feed
each chunk, drain, and on a drain error consult the custom handler (its
decision overrides the mode) or the recovery mode. -/
def runChunks : List (List Char) → Parser → Parser × Option PwError
  | [], p => (p, none)
  | c :: cs, p =>
    let p1 := p.feed c
    match p1.drain with
    | (p2, none) => runChunks cs p2
    | (p2, some err) =>
      match p2.errorHandler with
      | some h => if h err then runChunks cs p2 else (p2, some err)
      | none =>
        if p2.recoveryMode = .continueMode then runChunks cs p2
        else (p2, some err)

/-- `Engine.ProcessStream` from the parser's construction on: the read
loop over all chunks followed by `finish` at end-of-stream (an error
returned by the loop aborts before `finish`). -/
def processChunks (chunks : List (List Char)) (p : Parser) : Parser × Option PwError :=
  match runChunks chunks p with
  | (p', none) => p'.finish
  | (p', some e) => (p', some e)

/-- `Engine.ProcessStream`: `none` as the registry models a nil registry
(Go returns `errors.New("nil registry")` before reading anything).
Returns the ordered trace of events delivered to the sink and the error
outcome. -/
def processStream (reg : Option Registry) (options : EngineOptions)
    (validators : ValidatorRegistry) (chunks : List (List Char)) :
    List SectionEvent × Option PwError :=
  match reg with
  | none => ([], some .nilRegistry)
  | some r =>
    let out := processChunks chunks (newParser r options validators)
    (out.1.events, out.2)



/-! ## Concrete instances for exercising the theorems -/

/-- A registry with the single plugin `think`, no aliases. -/
def wregThink : Registry := NewRegistry.register ⟨['t','h','i','n','k'], []⟩

/-- A registry where `reason` is an alias of `think`. -/
def wregThinkReason : Registry :=
  NewRegistry.register ⟨['t','h','i','n','k'], [['r','e','a','s','o','n']]⟩

/-- A validator registry whose single validator for `think` always fails. -/
def wvalsBad : ValidatorRegistry :=
  [(['t','h','i','n','k'],
    [fun _ _ _ => some (PwError.validation ⟨⟨1,1⟩, "bad", []⟩ ['t','h','i','n','k'])])]

/-- The parser state after draining the chunk `<think>abc`: inside the
`think` section with body `abc` and an empty buffer. -/
def wpOpenThink : Parser :=
  { reg := wregThink
    buf := []
    active := some ⟨['t','h','i','n','k'], ['t','h','i','n','k'], [], ['a','b','c']⟩
    pos := ⟨1, 11⟩
    recoveryMode := .strictMode
    errorHandler := none
    validators := []
    lastContent := ['<','t','h','i','n','k','>','a','b','c']
    events := [] }

/-- An idle Continue-mode parser about to read the closing tag `</think>`. -/
def wpIdleCont : Parser :=
  { reg := wregThink
    buf := ('<' :: '/' :: 't' :: 'h' :: 'i' :: 'n' :: 'k' :: '>' :: [])
    active := none
    pos := ⟨1, 1⟩
    recoveryMode := .continueMode
    errorHandler := none
    validators := []
    lastContent := []
    events := [] }

/-- An idle strict-mode parser about to read the closing tag `</think>`. -/
def wpIdleStrict : Parser :=
  { reg := wregThink
    buf := ('<' :: '/' :: 't' :: 'h' :: 'i' :: 'n' :: 'k' :: '>' :: [])
    active := none
    pos := ⟨1, 1⟩
    recoveryMode := .strictMode
    errorHandler := none
    validators := []
    lastContent := []
    events := [] }

/-- `wpIdleStrict` after consuming the unmatched closing tag. -/
def wqIdleStrict : Parser := wpIdleStrict.consume 8

/-- The unmatched-tag error raised by `wpIdleStrict`. -/
def weUnmatched : PwError :=
  NewUnmatchedTagError wqIdleStrict.pos ['t','h','i','n','k'] wqIdleStrict.lastContent

/-- A Continue-mode parser inside `think` (body `abc`), a failing
validator installed, about to read the closing tag `</think>`. -/
def wpCloseBadVal : Parser :=
  { reg := wregThink
    buf := ('<' :: '/' :: 't' :: 'h' :: 'i' :: 'n' :: 'k' :: '>' :: [])
    active := some ⟨['t','h','i','n','k'], ['t','h','i','n','k'], [], ['a','b','c']⟩
    pos := ⟨1, 1⟩
    recoveryMode := .continueMode
    errorHandler := none
    validators := wvalsBad
    lastContent := []
    events := [] }

/-- A Continue-mode parser with an exhausted buffer. -/
def wpDone : Parser :=
  { reg := wregThink
    buf := []
    active := none
    pos := ⟨1, 1⟩
    recoveryMode := .continueMode
    errorHandler := none
    validators := []
    lastContent := []
    events := [] }

/-- A strict-mode parser inside `think` (body `abc`), a failing
validator installed and a handler that always votes continue, about to
read the closing tag `</think>`. -/
def wpCloseBadValH : Parser :=
  { reg := wregThink
    buf := ('<' :: '/' :: 't' :: 'h' :: 'i' :: 'n' :: 'k' :: '>' :: [])
    active := some ⟨['t','h','i','n','k'], ['t','h','i','n','k'], [], ['a','b','c']⟩
    pos := ⟨1, 1⟩
    recoveryMode := .strictMode
    errorHandler := some (fun _ => true)
    validators := wvalsBad
    lastContent := []
    events := [] }

/-- An idle strict-mode parser about to read the self-closing tag
`<think/>`. -/
def wpSelfCloseIdle : Parser :=
  { reg := wregThink
    buf := ('<' :: 't' :: 'h' :: 'i' :: 'n' :: 'k' :: '/' :: '>' :: [])
    active := none
    pos := ⟨1, 1⟩
    recoveryMode := .strictMode
    errorHandler := none
    validators := []
    lastContent := []
    events := [] }

/-- A parser inside an open `think` section (body `a`) about to read the
self-closing tag `<think/>`. -/
def wpSelfCloseIn : Parser :=
  { reg := wregThink
    buf := ('<' :: 't' :: 'h' :: 'i' :: 'n' :: 'k' :: '/' :: '>' :: [])
    active := some ⟨['t','h','i','n','k'], ['t','h','i','n','k'], [], ['a']⟩
    pos := ⟨1, 1⟩
    recoveryMode := .strictMode
    errorHandler := none
    validators := []
    lastContent := []
    events := [] }

/-! ## Progress of the drain loop -/

/-- Every error `parseTagToken` reports consumes at least one byte
(the Go index `i` is at least 1 at every error return). -/
theorem parseTagToken_errTok_pos (data : List Char) (pos : Position) (ctx : List Char)
    (n : Nat) (e : PwError) : parseTagToken data pos ctx = .errTok n e → 0 < n := by
  intro h
  unfold parseTagToken at h
  repeat' (split at h)
  all_goals
    first
      | (simp only [TokResult.errTok.injEq] at h; omega)
      | simp at h

/-- Every token `parseTagToken` returns consumes at least one byte. -/
theorem parseTagToken_tok_pos (data : List Char) (pos : Position) (ctx : List Char)
    (n : Nat) (t : TagToken) : parseTagToken data pos ctx = .tok n t → 0 < n := by
  intro h
  unfold parseTagToken at h
  repeat' (split at h)
  all_goals
    first
      | (simp only [TokResult.tok.injEq] at h; omega)
      | simp at h

/-- An accepted close consumes at least one byte (tail form). -/
theorem parseOwnCloseGt_closeOk_pos (p : Parser) (cn ws nm r2 : List Char) (n : Nat) :
    parseOwnCloseGt p cn ws nm r2 = .closeOk n → 0 < n := by
  intro h
  unfold parseOwnCloseGt at h
  repeat' (split at h)
  all_goals first | (simp only [CloseRes.closeOk.injEq] at h; omega) | simp at h

/-- The close tail only constructs errors in strict mode. -/
theorem parseOwnCloseGt_closeErr_strict (p : Parser) (cn ws nm r2 : List Char) (n : Nat)
    (e : PwError) : parseOwnCloseGt p cn ws nm r2 = .closeErr n e →
    p.recoveryMode = .strictMode := by
  intro h
  unfold parseOwnCloseGt at h
  repeat' (split at h)
  all_goals first | assumption | simp at h

/-- An accepted close consumes at least one byte (alias-check form). -/
theorem parseOwnCloseName_closeOk_pos (p : Parser) (el : Element) (ws nm r2 : List Char)
    (n : Nat) : parseOwnCloseName p el ws nm r2 = .closeOk n → 0 < n := by
  intro h
  unfold parseOwnCloseName at h
  simp only [] at h
  cases hcan : p.reg.canonical (toLowerStr nm) <;> rw [hcan] at h <;>
    repeat' (split at h)
  all_goals first
    | (exact parseOwnCloseGt_closeOk_pos _ _ _ _ _ _ h)
    | simp at h

/-- The alias check only passes on strict-mode errors. -/
theorem parseOwnCloseName_closeErr_strict (p : Parser) (el : Element) (ws nm r2 : List Char)
    (n : Nat) (e : PwError) : parseOwnCloseName p el ws nm r2 = .closeErr n e →
    p.recoveryMode = .strictMode := by
  intro h
  unfold parseOwnCloseName at h
  simp only [] at h
  cases hcan : p.reg.canonical (toLowerStr nm) <;> rw [hcan] at h <;>
    repeat' (split at h)
  all_goals first
    | (exact parseOwnCloseGt_closeErr_strict _ _ _ _ _ _ _ h)
    | simp at h

/-- An accepted close consumes at least one byte. -/
theorem parseOwnClose_closeOk_pos (p : Parser) (data : List Char) (n : Nat) :
    p.parseOwnClose data = .closeOk n → 0 < n := by
  intro h
  unfold Parser.parseOwnClose at h
  repeat' (split at h)
  all_goals first
    | (exact parseOwnCloseName_closeOk_pos _ _ _ _ _ _ h)
    | (simp only [CloseRes.closeOk.injEq] at h; omega)
    | simp at h

/-- `parseOwnClose` only constructs errors in strict mode. -/
theorem parseOwnClose_closeErr_strict (p : Parser) (data : List Char) (n : Nat)
    (e : PwError) : p.parseOwnClose data = .closeErr n e → p.recoveryMode = .strictMode := by
  intro h
  unfold Parser.parseOwnClose at h
  repeat' (split at h)
  all_goals first
    | (exact parseOwnCloseName_closeErr_strict _ _ _ _ _ _ _ h)
    | assumption
    | simp at h

/-- Every `continue` of the drain loop consumes at least one buffered
byte: the loop makes progress, and `buf.length + 1` rounds of fuel are
always enough. -/
theorem drainStep_next_lt (p q : Parser) : drainStep p = .next q →
    q.buf.length < p.buf.length := by
  intro h
  unfold drainStep at h
  simp only [] at h
  split at h
  · exact absurd h (by simp)
  · rename_i hd
    split at h
    · rename_i el hel
      split at h
      · simp only [Step.next.injEq] at h
        subst h
        simp [Parser.consume, Parser.withBody, hd]
      · split at h
        · rename_i n e hco
          have hstrict := parseOwnClose_closeErr_strict p p.buf n e hco
          split at h
          · rename_i hcont; rw [hstrict] at hcont; cases hcont
          · exact absurd h (by simp)
        · exact absurd h (by simp)
        · rename_i n hco
          have hn := parseOwnClose_closeOk_pos p p.buf n hco
          split at h
          · split at h
            · split at h
              · simp only [Step.next.injEq] at h
                subst h
                simp [Parser.consume, hd]
                omega
              · exact absurd h (by simp)
            · split at h
              · exact absurd h (by simp)
              · simp only [Step.next.injEq] at h
                subst h
                simp [Parser.consume, hd]
                omega
          · simp only [Step.next.injEq] at h
            subst h
            simp [Parser.consume, hd]
            omega
        · split at h
          · simp only [Step.next.injEq] at h
            subst h
            rename_i hlen
            simp [Parser.consume, Parser.withBody, hd]
            simp [hd] at hlen
            omega
          · simp only [Step.next.injEq] at h
            subst h
            simp [Parser.consume, Parser.withBody, hd]
      · simp only [Step.next.injEq] at h
        subst h
        simp [Parser.consume, Parser.withBody, hd]
        rename_i lt hne0 heq
        exact Nat.pos_of_ne_zero hne0
    · split at h
      · exact absurd h (by simp)
      · split at h
        · rename_i n e htk
          have hn := parseTagToken_errTok_pos p.buf p.pos p.lastContent n e htk
          split at h
          · simp only [Step.next.injEq] at h
            subst h
            simp [Parser.consume, hd]
            omega
          · exact absurd h (by simp)
        · exact absurd h (by simp)
        · rename_i n t htk
          have hn := parseTagToken_tok_pos p.buf p.pos p.lastContent n t htk
          split at h
          · split at h
            · simp only [Step.next.injEq] at h
              subst h
              simp [Parser.consume, hd]
              omega
            · simp only [Step.next.injEq] at h
              subst h
              simp [Parser.consume, hd]
              omega
          · split at h
            · simp only [Step.next.injEq] at h
              subst h
              simp [Parser.consume, hd]
              omega
            · simp only [Step.next.injEq] at h
              subst h
              simp [Parser.consume, hd]
              omega
          · split at h
            · exact absurd h (by simp)
            · simp only [Step.next.injEq] at h
              subst h
              simp [Parser.consume, hd]
              omega
      · simp only [Step.next.injEq] at h
        subst h
        simp [Parser.consume, hd]
        rename_i lt hne0 heq
        exact Nat.pos_of_ne_zero hne0

/-- With enough fuel, the result of the drain loop does not depend on the
exact fuel value. -/
theorem drainN_eq_of_lt : ∀ (n : Nat) (p : Parser) (m : Nat), p.buf.length < n →
    p.buf.length < m → drainN n p = drainN m p := by
  intro n
  induction n with
  | zero => intro p m h1 _; omega
  | succ n' ih =>
    intro p m h1 h2
    match m, h2 with
    | m' + 1, _ =>
      simp only [drainN]
      cases hs : drainStep p with
      | stop q e => rfl
      | next q =>
        have hlt := drainStep_next_lt p q hs
        exact ih q m' (by omega) (by omega)

/-- A `continue` iteration: `drain` from `p` equals `drain` from the
updated state. -/
theorem drain_eq_of_next (p q : Parser) (h : drainStep p = .next q) :
    p.drain = q.drain := by
  unfold Parser.drain
  have hlt := drainStep_next_lt p q h
  have h1 : drainN (p.buf.length + 1) p = drainN p.buf.length q := by
    simp only [drainN, h]
  rw [h1]
  exact drainN_eq_of_lt p.buf.length q (q.buf.length + 1) (by omega) (by omega)

/-- A `return` iteration: `drain` stops with the state and error of the
step. -/
theorem drain_eq_of_stop (p q : Parser) (e : Option PwError) (h : drainStep p = .stop q e) :
    p.drain = (q, e) := by
  unfold Parser.drain
  simp only [drainN, h]

/-! ## Scanning facts used to evaluate the tokenizer symbolically -/

/-- Two characters on opposite sides of a character-class test differ. -/
theorem class_ne {P : Char → Bool} {c d : Char} (hc : P c = true) (hd : P d = false) :
    c ≠ d := by
  intro h
  rw [h, hd] at hc
  cases hc

/-- Name characters are not whitespace. -/
theorem nameChar_not_space {c : Char} (h : isNameChar c = true) : isSpace c = false := by
  cases hs : isSpace c with
  | false => rfl
  | true =>
    exfalso
    have : ((c = ' ' ∨ c = '\n') ∨ c = '\t') ∨ c = '\r' := by
      simpa [isSpace] using hs
    rcases this with ((h1 | h1) | h1) | h1 <;> subst h1 <;> simp [isNameChar] at h
  
/-- Whitespace characters are not name characters. -/
theorem space_not_nameChar {c : Char} (h : isSpace c = true) : isNameChar c = false := by
  cases hn : isNameChar c with
  | false => rfl
  | true => rw [nameChar_not_space hn] at h; cases h

/-- `takeWhile` stops exactly at the first failing character. -/
theorem takeWhile_append_cons (P : Char → Bool) (xs : List Char) (y : Char) (ys : List Char)
    (hall : ∀ c ∈ xs, P c = true) (hy : P y = false) :
    (xs ++ y :: ys).takeWhile P = xs := by
  induction xs with
  | nil => simp [List.takeWhile, hy]
  | cons x xt ih =>
    have hx : P x = true := hall x (by simp)
    simp only [List.cons_append, List.takeWhile, hx]
    rw [show xt.append (y :: ys) = xt ++ y :: ys from rfl]
    rw [ih (fun c hc => hall c (by simp [hc]))]

/-- `dropWhile` drops exactly the leading run of passing characters. -/
theorem dropWhile_append_cons (P : Char → Bool) (xs : List Char) (y : Char) (ys : List Char)
    (hall : ∀ c ∈ xs, P c = true) (hy : P y = false) :
    (xs ++ y :: ys).dropWhile P = y :: ys := by
  induction xs with
  | nil => simp [List.dropWhile, hy]
  | cons x xt ih =>
    have hx : P x = true := hall x (by simp)
    simp only [List.cons_append, List.dropWhile, hx]
    rw [show xt.append (y :: ys) = xt ++ y :: ys from rfl]
    exact ih (fun c hc => hall c (by simp [hc]))

/-- `bytes.IndexByte` finds the first occurrence. -/
theorem bytesIndexOf_append_cons (b : Char) (xs : List Char) (ys : List Char)
    (hall : ∀ c ∈ xs, c ≠ b) :
    bytesIndexOf b (xs ++ b :: ys) = some xs.length := by
  induction xs with
  | nil => simp [bytesIndexOf]
  | cons x xt ih =>
    have hx : x ≠ b := hall x (by simp)
    simp only [List.cons_append, bytesIndexOf, if_neg hx]
    rw [show xt.append (b :: ys) = xt ++ b :: ys from rfl]
    rw [ih (fun c hc => hall c (by simp [hc]))]
    simp

/-- `bytes.IndexByte` misses when the byte does not occur. -/
theorem bytesIndexOf_eq_none (b : Char) (xs : List Char) (hall : ∀ c ∈ xs, c ≠ b) :
    bytesIndexOf b xs = none := by
  induction xs with
  | nil => rfl
  | cons x xt ih =>
    have hx : x ≠ b := hall x (by simp)
    simp only [bytesIndexOf, if_neg hx]
    rw [ih (fun c hc => hall c (by simp [hc]))]

/-! ## Symbolic evaluation of the tokenizer -/

/-- `parseAttrs` at `>`: the opening tag ends here. -/
theorem parseAttrs_gt (pos : Position) (ctx nm : List Char) (attrs : AttrMap)
    (rest : List Char) :
    parseAttrs pos ctx nm attrs ('>' :: rest) = .tok 1 ⟨.tokenOpen, nm, attrs⟩ := rfl

/-- `parseAttrs` at `/>`: a self-closing tag ends here. -/
theorem parseAttrs_selfclose (pos : Position) (ctx nm : List Char) (attrs : AttrMap)
    (rest : List Char) :
    parseAttrs pos ctx nm attrs ('/' :: '>' :: rest) = .tok 2 ⟨.tokenSelfClose, nm, attrs⟩ := rfl

/-- `parseTagToken` on a plain opening tag `<name>`: the token is an open
token for `name`, consuming the tag. -/
theorem parseTagToken_open (name rest : List Char) (pos : Position) (ctx : List Char)
    (hne : name ≠ []) (hall : ∀ c ∈ name, isNameChar c = true) :
    parseTagToken ('<' :: (name ++ '>' :: rest)) pos ctx =
      .tok (name.length + 2) ⟨.tokenOpen, name, []⟩ := by
  cases name with
  | nil => exact absurd rfl hne
  | cons n0 nt =>
    have h0 : isNameChar n0 = true := hall n0 (by simp)
    have hslash : n0 ≠ '/' := class_ne h0 (by decide)
    unfold parseTagToken
    simp only [List.cons_append]
    split
    · rename_i heq
      exact absurd rfl heq
    · split
      · rename_i rest2 heq
        rw [List.cons_eq_cons] at heq
        exact absurd heq.1 hslash
      · rw [show n0 :: (nt ++ '>' :: rest) = (n0 :: nt) ++ '>' :: rest from rfl]
        rw [takeWhile_append_cons isNameChar (n0 :: nt) '>' rest hall (by decide),
            dropWhile_append_cons isNameChar (n0 :: nt) '>' rest hall (by decide)]
        simp only []
        rw [parseAttrs_gt]
        simp only [TokResult.tok.injEq]
        constructor
        · simp; omega
        · trivial

/-- `parseTagToken` on a plain self-closing tag `<name/>`. -/
theorem parseTagToken_selfclose (name rest : List Char) (pos : Position) (ctx : List Char)
    (hne : name ≠ []) (hall : ∀ c ∈ name, isNameChar c = true) :
    parseTagToken ('<' :: (name ++ '/' :: '>' :: rest)) pos ctx =
      .tok (name.length + 3) ⟨.tokenSelfClose, name, []⟩ := by
  cases name with
  | nil => exact absurd rfl hne
  | cons n0 nt =>
    have h0 : isNameChar n0 = true := hall n0 (by simp)
    have hslash : n0 ≠ '/' := class_ne h0 (by decide)
    unfold parseTagToken
    simp only [List.cons_append]
    split
    · rename_i heq
      exact absurd rfl heq
    · split
      · rename_i rest2 heq
        rw [List.cons_eq_cons] at heq
        exact absurd heq.1 hslash
      · rw [show n0 :: (nt ++ '/' :: '>' :: rest) = (n0 :: nt) ++ '/' :: '>' :: rest from rfl]
        rw [takeWhile_append_cons isNameChar (n0 :: nt) '/' ('>' :: rest) hall (by decide),
            dropWhile_append_cons isNameChar (n0 :: nt) '/' ('>' :: rest) hall (by decide)]
        simp only []
        rw [parseAttrs_selfclose]
        simp only [TokResult.tok.injEq]
        constructor
        · simp; omega
        · trivial

/-- `parseTagToken` on a well-formed closing tag `</name>` (the name is
kept in its original spelling; a closing token carries no attributes). -/
theorem parseTagToken_close (name rest : List Char) (pos : Position) (ctx : List Char)
    (hall : ∀ c ∈ name, isNameChar c = true) :
    parseTagToken ('<' :: '/' :: (name ++ '>' :: rest)) pos ctx =
      .tok (name.length + 3) ⟨.tokenClose, name, []⟩ := by
  unfold parseTagToken
  simp only []
  split
  · rename_i heq
    exact absurd rfl heq
  · rw [takeWhile_append_cons isNameChar name '>' rest hall (by decide),
        dropWhile_append_cons isNameChar name '>' rest hall (by decide)]
    simp only []
    rw [show List.dropWhile isSpace ('>' :: rest) = '>' :: rest from rfl,
        show List.takeWhile isSpace ('>' :: rest) = [] from rfl]
    simp only []
    norm_num
    omega

/-- The attribute loop at a key that is not followed by `=`: an
`AttributeParsingError` naming the tag and the offending key, with the
consumed count at the offending byte. -/
theorem parseAttrs_attrErr (pos : Position) (ctx nm : List Char) (attrs : AttrMap)
    (ws key ws2 : List Char) (b : Char) (rest : List Char)
    (hws : ∀ c ∈ ws, isSpace c = true)
    (hkne : key ≠ []) (hkey : ∀ c ∈ key, isAttrNameChar c = true)
    (hws2 : ∀ c ∈ ws2, isSpace c = true)
    (hb1 : isSpace b = false) (hb2 : isAttrNameChar b = false) (hb3 : b ≠ '=') :
    parseAttrs pos ctx nm attrs (ws ++ key ++ ws2 ++ b :: rest) =
      .errTok (ws.length + key.length + ws2.length)
        (NewAttributeParsingError pos nm key "expected '=' after attribute name" ctx) := by
  cases key with
  | nil => exact absurd rfl hkne
  | cons k0 kt =>
    have hk0 : isAttrNameChar k0 = true := hkey k0 (by simp)
    have hk0s : isSpace k0 = false := nameChar_not_space hk0
    have hgt : k0 ≠ '>' := class_ne hk0 (by decide)
    have hsl : k0 ≠ '/' := class_ne hk0 (by decide)
    -- stop character for the key scan: the first of ws2, or b
    have htk : ((k0 :: kt) ++ (ws2 ++ b :: rest)).takeWhile isAttrNameChar = k0 :: kt := by
      cases ws2 with
      | nil => exact takeWhile_append_cons _ _ _ _ hkey hb2
      | cons w0 wt =>
        exact takeWhile_append_cons _ _ _ _ hkey
          (space_not_nameChar (hws2 w0 (by simp)))
    have hdk : ((k0 :: kt) ++ (ws2 ++ b :: rest)).dropWhile isAttrNameChar = ws2 ++ b :: rest := by
      cases ws2 with
      | nil => exact dropWhile_append_cons _ _ _ _ hkey hb2
      | cons w0 wt =>
        exact dropWhile_append_cons _ _ _ _ hkey
          (space_not_nameChar (hws2 w0 (by simp)))
    have htw : (ws2 ++ b :: rest).takeWhile isSpace = ws2 :=
      takeWhile_append_cons _ _ _ _ hws2 hb1
    have hdw : (ws2 ++ b :: rest).dropWhile isSpace = b :: rest :=
      dropWhile_append_cons _ _ _ _ hws2 hb1
    unfold parseAttrs parseAttrsF
    simp only []
    rw [show ws ++ (k0 :: kt) ++ ws2 ++ b :: rest = ws ++ k0 :: (kt ++ ws2 ++ b :: rest)
          from by simp]
    rw [takeWhile_append_cons isSpace ws k0 _ hws hk0s,
        dropWhile_append_cons isSpace ws k0 _ hws hk0s]
    simp only [if_neg hgt, if_neg hsl]
    rw [show k0 :: (kt ++ ws2 ++ b :: rest) = (k0 :: kt) ++ (ws2 ++ b :: rest) from by simp]
    rw [htk, hdk]
    rcases hws2c : ws2 with _ | ⟨w0, wt⟩
    · subst hws2c
      simp only [List.nil_append]
      rw [show List.takeWhile isSpace (b :: rest) = [] from by
            simp [List.takeWhile, hb1],
          show List.dropWhile isSpace (b :: rest) = b :: rest from by
            simp [List.dropWhile, hb1]]
      simp only [if_pos hb3]
    · subst hws2c
      simp only [List.cons_append]
      rw [show (w0 :: wt) ++ b :: rest = w0 :: (wt ++ b :: rest) from rfl] at htw hdw
      rw [show List.takeWhile isSpace (w0 :: (wt ++ b :: rest)) =
            (w0 :: wt) ++ [] from by rw [← htw]; simp,
          show List.dropWhile isSpace (w0 :: (wt ++ b :: rest)) = b :: rest from hdw]
      simp only [if_pos hb3]
      simp

/-- `parseTagToken` on an open tag whose first attribute key is not
followed by `=`: an `AttributeParsingError` whose TagName is the tag's
name and whose AttributeName is the offending key, consuming up to the
offending byte. -/
theorem parseTagToken_attrErr (name ws1 key ws2 : List Char) (b : Char) (rest : List Char)
    (pos : Position) (ctx : List Char)
    (hne : name ≠ []) (hall : ∀ c ∈ name, isNameChar c = true)
    (hw1ne : ws1 ≠ []) (hws1 : ∀ c ∈ ws1, isSpace c = true)
    (hkne : key ≠ []) (hkey : ∀ c ∈ key, isAttrNameChar c = true)
    (hws2 : ∀ c ∈ ws2, isSpace c = true)
    (hb1 : isSpace b = false) (hb2 : isAttrNameChar b = false) (hb3 : b ≠ '=') :
    parseTagToken ('<' :: (name ++ ws1 ++ key ++ ws2 ++ b :: rest)) pos ctx =
      .errTok (1 + name.length + ws1.length + key.length + ws2.length)
        (NewAttributeParsingError pos name key "expected '=' after attribute name" ctx) := by
  cases name with
  | nil => exact absurd rfl hne
  | cons n0 nt =>
    cases ws1 with
    | nil => exact absurd rfl hw1ne
    | cons s0 st =>
      have h0 : isNameChar n0 = true := hall n0 (by simp)
      have hslash : n0 ≠ '/' := class_ne h0 (by decide)
      have hs0 : isSpace s0 = true := hws1 s0 (by simp)
      have hs0n : isNameChar s0 = false := space_not_nameChar hs0
      unfold parseTagToken
      simp only [List.cons_append, List.append_assoc]
      split
      · rename_i heq
        exact absurd rfl heq
      · split
        · rename_i rest2 heq
          rw [List.cons_eq_cons] at heq
          exact absurd heq.1 hslash
        · rw [show n0 :: (nt ++ s0 :: (st ++ (key ++ (ws2 ++ b :: rest)))) =
                (n0 :: nt) ++ s0 :: (st ++ key ++ ws2 ++ b :: rest) from by simp]
          rw [takeWhile_append_cons isNameChar (n0 :: nt) s0 _ hall hs0n,
              dropWhile_append_cons isNameChar (n0 :: nt) s0 _ hall hs0n]
          simp only []
          rw [show s0 :: (st ++ key ++ ws2 ++ b :: rest) =
                (s0 :: st) ++ key ++ ws2 ++ b :: rest from by simp]
          rw [parseAttrs_attrErr pos ctx (n0 :: nt) [] (s0 :: st) key ws2 b rest
                hws1 hkne hkey hws2 hb1 hb2 hb3]
          simp only [TokResult.errTok.injEq]
          constructor
          · simp; omega
          · trivial

/-- `parseOwnClose` accepts `</name>` when the name's canonical name
equals the active section's canonical name, consuming the whole closing
tag. -/
theorem parseOwnClose_closes (p : Parser) (el : Element) (a2 rest : List Char)
    (hact : p.active = some el)
    (ha2ne : a2 ≠ []) (ha2 : ∀ c ∈ a2, isNameChar c = true)
    (hcan : p.reg.canonical (toLowerStr a2) = some el.canon) :
    p.parseOwnClose ('<' :: '/' :: (a2 ++ '>' :: rest)) = .closeOk (a2.length + 3) := by
  cases a2 with
  | nil => exact absurd rfl ha2ne
  | cons a0 at2 =>
    have h0 : isNameChar a0 = true := ha2 a0 (by simp)
    have h0s : isSpace a0 = false := nameChar_not_space h0
    unfold Parser.parseOwnClose
    rw [hact]
    simp only [List.cons_append]
    rw [if_neg (show ¬('<' ≠ '<' ∨ '/' ≠ '/') by decide)]
    rw [show List.takeWhile isSpace (a0 :: (at2 ++ '>' :: rest)) = [] from by
          simp [List.takeWhile, h0s],
        show List.dropWhile isSpace (a0 :: (at2 ++ '>' :: rest)) =
            a0 :: (at2 ++ '>' :: rest) from by
          simp [List.dropWhile, h0s]]
    simp only []
    rw [show a0 :: (at2 ++ '>' :: rest) = (a0 :: at2) ++ '>' :: rest from rfl]
    rw [takeWhile_append_cons isNameChar (a0 :: at2) '>' rest ha2 (by decide),
        dropWhile_append_cons isNameChar (a0 :: at2) '>' rest ha2 (by decide)]
    simp only []
    unfold parseOwnCloseName
    simp only []
    rw [hcan]
    simp only [if_pos rfl]
    unfold parseOwnCloseGt
    rw [show List.takeWhile isSpace ('>' :: rest) = [] from rfl,
        show List.dropWhile isSpace ('>' :: rest) = '>' :: rest from rfl]
    simp only []
    rw [if_neg (show ¬('>' ≠ '>') by decide)]
    simp only [if_true]
    simp only [CloseRes.closeOk.injEq, List.length_nil, List.length_cons]
    omega

/-! ## Drain-loop evaluation lemmas -/

/-- The drain loop never changes the parser's configuration: registry,
recovery mode, error handler and validators are read-only. -/
theorem drainStep_config (p : Parser) :
    (∀ q, drainStep p = .next q →
      q.reg = p.reg ∧ q.recoveryMode = p.recoveryMode ∧
      q.errorHandler = p.errorHandler ∧ q.validators = p.validators) ∧
    (∀ q e, drainStep p = .stop q e →
      q.reg = p.reg ∧ q.recoveryMode = p.recoveryMode ∧
      q.errorHandler = p.errorHandler ∧ q.validators = p.validators) := by
  constructor <;> intro q
  case left =>
    intro h
    unfold drainStep at h
    simp only [] at h
    repeat' (split at h)
    all_goals first
      | (simp only [Step.next.injEq] at h; subst h; simp [Parser.consume, Parser.withBody])
      | simp at h
  case right =>
    intro e h
    unfold drainStep at h
    simp only [] at h
    repeat' (split at h)
    all_goals first
      | (simp only [Step.stop.injEq] at h; obtain ⟨h1, h2⟩ := h; subst h1;
         simp [Parser.consume, Parser.withBody])
      | simp at h

/-- Configuration preservation along the whole drain loop. -/
theorem drainN_config (n : Nat) (p q : Parser) (e : Option PwError)
    (h : drainN n p = (q, e)) :
    q.reg = p.reg ∧ q.recoveryMode = p.recoveryMode ∧
    q.errorHandler = p.errorHandler ∧ q.validators = p.validators := by
  induction n generalizing p with
  | zero =>
    simp [drainN] at h
    simp [h.1]
  | succ n ih =>
    simp only [drainN] at h
    cases hs : drainStep p with
    | stop r er => rw [hs] at h; simp at h; rw [← h.1]; exact (drainStep_config p).2 r er hs
    | next r =>
      rw [hs] at h
      have h1 := ih r h
      have h2 := (drainStep_config p).1 r hs
      exact ⟨h1.1.trans h2.1, h1.2.1.trans h2.2.1, h1.2.2.1.trans h2.2.2.1,
        h1.2.2.2.trans h2.2.2.2⟩

/-- Configuration preservation for `drain`. -/
theorem drain_config (p q : Parser) (e : Option PwError) (h : p.drain = (q, e)) :
    q.reg = p.reg ∧ q.recoveryMode = p.recoveryMode ∧
    q.errorHandler = p.errorHandler ∧ q.validators = p.validators :=
  drainN_config _ p q e h

/-- Configuration preservation along the read loop. -/
theorem runChunks_config (chunks : List (List Char)) (p q : Parser) (e : Option PwError)
    (h : runChunks chunks p = (q, e)) :
    q.reg = p.reg ∧ q.recoveryMode = p.recoveryMode ∧
    q.errorHandler = p.errorHandler ∧ q.validators = p.validators := by
  induction chunks generalizing p with
  | nil => simp [runChunks] at h; simp [h.1]
  | cons c cs ih =>
    simp only [runChunks] at h
    cases hd : (p.feed c).drain with
    | mk p2 oe =>
      have hcfg : p2.reg = p.reg ∧ p2.recoveryMode = p.recoveryMode ∧
          p2.errorHandler = p.errorHandler ∧ p2.validators = p.validators := by
        have := drain_config (p.feed c) p2 oe hd
        simpa [Parser.feed] using this
      rw [hd] at h
      cases oe with
      | none =>
        have h1 := ih p2 h
        exact ⟨h1.1.trans hcfg.1, h1.2.1.trans hcfg.2.1, h1.2.2.1.trans hcfg.2.2.1,
          h1.2.2.2.trans hcfg.2.2.2⟩
      | some err =>
        simp only [] at h
        cases heh : p2.errorHandler with
        | some hf =>
          rw [heh] at h
          simp only [] at h
          by_cases hb : hf err
          · rw [if_pos hb] at h
            have h1 := ih p2 h
            exact ⟨h1.1.trans hcfg.1, h1.2.1.trans hcfg.2.1, h1.2.2.1.trans hcfg.2.2.1,
              h1.2.2.2.trans hcfg.2.2.2⟩
          · rw [if_neg hb] at h
            simp at h
            rw [← h.1]
            exact hcfg
        | none =>
          rw [heh] at h
          simp only [] at h
          by_cases hm : p2.recoveryMode = .continueMode
          · rw [if_pos hm] at h
            have h1 := ih p2 h
            exact ⟨h1.1.trans hcfg.1, h1.2.1.trans hcfg.2.1, h1.2.2.1.trans hcfg.2.2.1,
              h1.2.2.2.trans hcfg.2.2.2⟩
          · rw [if_neg hm] at h
            simp at h
            rw [← h.1]
            exact hcfg

/-- `validateSection` with no registered validators always passes. -/
theorem validateSection_nil (n c : List Char) (pos : Position) :
    validateSection [] n c pos = none := rfl

/-- One drain iteration on an idle parser whose buffer starts with a
recognized opening tag: consume the tag and enter the section. -/
theorem drainStep_openTag (p : Parser) (name rest c : List Char)
    (hact : p.active = none) (hbuf : p.buf = '<' :: (name ++ '>' :: rest))
    (hne : name ≠ []) (hall : ∀ x ∈ name, isNameChar x = true)
    (hcan : p.reg.canonical name = some c) :
    drainStep p = .next { p.consume (name.length + 2) with active := some ⟨name, c, [], []⟩ } := by
  obtain ⟨reg, buf, act, pos, rm, eh, vals, lc, evs⟩ := p
  simp only [] at hact hbuf hcan
  subst hact hbuf
  unfold drainStep
  simp only []
  rw [show bytesIndexOf '<' ('<' :: (name ++ '>' :: rest)) = some 0 from by
        simp [bytesIndexOf]]
  rw [parseTagToken_open name rest pos lc hne hall]
  simp only [Parser.consume]
  rw [hcan]

/-- One drain iteration on an idle parser at a recognized self-closing
tag: consume it and emit an event with empty content. -/
theorem drainStep_selfCloseTag (p : Parser) (name rest c : List Char)
    (hact : p.active = none) (hbuf : p.buf = '<' :: (name ++ '/' :: '>' :: rest))
    (hne : name ≠ []) (hall : ∀ x ∈ name, isNameChar x = true)
    (hcan : p.reg.canonical name = some c) :
    drainStep p = .next { p.consume (name.length + 3) with
      events := p.events ++ [⟨c, [], []⟩] } := by
  obtain ⟨reg, buf, act, pos, rm, eh, vals, lc, evs⟩ := p
  simp only [] at hact hbuf hcan
  subst hact hbuf
  unfold drainStep
  simp only []
  rw [show bytesIndexOf '<' ('<' :: (name ++ '/' :: '>' :: rest)) = some 0 from by
        simp [bytesIndexOf]]
  rw [parseTagToken_selfclose name rest pos lc hne hall]
  simp only [Parser.consume]
  rw [hcan]

/-- One drain iteration on an idle parser at an unrecognized self-closing
tag: consume it and emit nothing. -/
theorem drainStep_selfCloseTagUnknown (p : Parser) (name rest : List Char)
    (hact : p.active = none) (hbuf : p.buf = '<' :: (name ++ '/' :: '>' :: rest))
    (hne : name ≠ []) (hall : ∀ x ∈ name, isNameChar x = true)
    (hcan : p.reg.canonical name = none) :
    drainStep p = .next (p.consume (name.length + 3)) := by
  obtain ⟨reg, buf, act, pos, rm, eh, vals, lc, evs⟩ := p
  simp only [] at hact hbuf hcan
  subst hact hbuf
  unfold drainStep
  simp only []
  rw [show bytesIndexOf '<' ('<' :: (name ++ '/' :: '>' :: rest)) = some 0 from by
        simp [bytesIndexOf]]
  rw [parseTagToken_selfclose name rest pos lc hne hall]
  simp only [Parser.consume]
  rw [hcan]

/-- One drain iteration on an idle parser at a well-formed closing tag:
in strict mode drain stops with an `UnmatchedTagError` naming the tag
(position and context taken after consuming the tag); otherwise the tag
is consumed and ignored with no event. -/
theorem drainStep_unmatchedClose (p : Parser) (name rest : List Char)
    (hact : p.active = none) (hbuf : p.buf = '<' :: '/' :: (name ++ '>' :: rest))
    (hall : ∀ x ∈ name, isNameChar x = true) :
    drainStep p =
      if p.recoveryMode = .strictMode then
        .stop (p.consume (name.length + 3))
          (some (NewUnmatchedTagError (p.consume (name.length + 3)).pos name
            (p.consume (name.length + 3)).lastContent))
      else .next (p.consume (name.length + 3)) := by
  obtain ⟨reg, buf, act, pos, rm, eh, vals, lc, evs⟩ := p
  simp only [] at hact hbuf
  subst hact hbuf
  unfold drainStep
  simp only []
  rw [show bytesIndexOf '<' ('<' :: '/' :: (name ++ '>' :: rest)) = some 0 from by
        simp [bytesIndexOf]]
  rw [parseTagToken_close name rest pos lc hall]
  simp only [Parser.consume]

/-- One drain iteration inside a section whose buffer starts with body
text up to an inner `<`: the text is appended to the body verbatim. -/
theorem drainStep_bodyText (p : Parser) (el : Element) (t u : List Char)
    (hact : p.active = some el) (hbuf : p.buf = t ++ '<' :: u)
    (htne : t ≠ []) (ht : ∀ x ∈ t, x ≠ '<') :
    drainStep p = .next ((p.withBody el t).consume t.length) := by
  obtain ⟨reg, buf, act, pos, rm, eh, vals, lc, evs⟩ := p
  simp only [] at hact hbuf
  subst hact hbuf
  cases t with
  | nil => exact absurd rfl htne
  | cons t0 tt =>
    unfold drainStep
    simp only []
    rw [show (t0 :: tt) ++ '<' :: u = t0 :: (tt ++ '<' :: u) from rfl]
    rw [show bytesIndexOf '<' (t0 :: (tt ++ '<' :: u)) = some (t0 :: tt).length from
          bytesIndexOf_append_cons '<' (t0 :: tt) u ht]
    simp only [List.length_cons]
    rw [show (t0 :: (tt ++ '<' :: u)).take (tt.length + 1) = t0 :: tt from by
          rw [show t0 :: (tt ++ '<' :: u) = (t0 :: tt) ++ '<' :: u from rfl]
          rw [show tt.length + 1 = (t0 :: tt).length from rfl]
          exact List.take_left (t0 :: tt) ('<' :: u)]

/-- One drain iteration inside a section at its matching closing tag,
when validation passes: consume the tag, leave the section and emit the
event (canonical name, opening attributes, accumulated body). -/
theorem drainStep_closeTag (p : Parser) (el : Element) (a2 rest : List Char)
    (hact : p.active = some el) (hbuf : p.buf = '<' :: '/' :: (a2 ++ '>' :: rest))
    (ha2ne : a2 ≠ []) (ha2 : ∀ x ∈ a2, isNameChar x = true)
    (hcan : p.reg.canonical (toLowerStr a2) = some el.canon)
    (hval : validateSection p.validators el.canon el.body
      ((p.consume (a2.length + 3)).pos) = none) :
    drainStep p = .next { p.consume (a2.length + 3) with
      active := none,
      events := p.events ++ [⟨el.canon, el.attrs, el.body⟩] } := by
  obtain ⟨reg, buf, act, pos, rm, eh, vals, lc, evs⟩ := p
  simp only [] at hact hbuf hcan hval
  subst hact hbuf
  unfold drainStep
  simp only []
  rw [show bytesIndexOf '<' ('<' :: '/' :: (a2 ++ '>' :: rest)) = some 0 from by
        simp [bytesIndexOf]]
  rw [parseOwnClose_closes _ el a2 rest rfl ha2ne ha2 hcan]
  simp only [Parser.consume] at hval ⊢
  rw [hval]

/-- Draining an empty buffer stops at once with no error. -/
theorem drain_nil (p : Parser) (h : p.buf = []) : p.drain = (p, none) := by
  apply drain_eq_of_stop
  unfold drainStep
  rw [h]

/-- `finish` with no active section only clears the buffer. -/
theorem finish_idle (p : Parser) (h : p.active = none) :
    p.finish = ({ p with buf := [] }, none) := by
  obtain ⟨reg, buf, act, pos, rm, eh, vals, lc, evs⟩ := p
  simp only [] at h
  subst h
  unfold Parser.finish
  simp only []

/-- `finish` with an active recognized section whose (body plus leftover
buffer) passes validation: exactly one event is emitted for it, with all
accumulated content. -/
theorem finish_forced (p : Parser) (el : Element)
    (hact : p.active = some el) (hcanon : el.canon ≠ [])
    (hval : validateSection p.validators el.canon (el.body ++ p.buf) p.pos = none) :
    p.finish = ({ p with
      buf := []
      active := none
      events := p.events ++ [⟨el.canon, el.attrs, el.body ++ p.buf⟩] }, none) := by
  obtain ⟨reg, buf, act, pos, rm, eh, vals, lc, evs⟩ := p
  simp only [] at hact hval
  subst hact
  unfold Parser.finish Parser.withBody
  simp only []
  cases hbuf : buf with
  | nil =>
    subst hbuf
    rw [if_neg (by simp)]
    simp only []
    rw [if_pos hcanon]
    simp only [List.append_nil] at hval
    rw [hval]
    simp
  | cons b0 bt =>
    subst hbuf
    rw [if_pos (by simp)]
    simp only []
    rw [if_pos hcanon]
    rw [hval]

/-- ASCII lower-casing is idempotent. -/
theorem lowerChar_idem (c : Char) : lowerChar (lowerChar c) = lowerChar c := by
  unfold lowerChar
  by_cases h : ('A' ≤ c && c ≤ 'Z') = true
  · rw [if_pos h, if_neg ?_]
    simp only [Bool.and_eq_true, decide_eq_true_eq] at h
    obtain ⟨h1, h2⟩ := h
    have hv1 : c.toNat ≤ 90 := by
      have := h2
      simp [Char.le_def] at this
      exact this
    have hv2 : 65 ≤ c.toNat := by
      have := h1
      simp [Char.le_def] at this
      exact this
    have hvalid : Nat.isValidChar (c.toNat + 32) := Or.inl (by omega)
    have htn : (Char.ofNat (c.toNat + 32)).toNat = c.toNat + 32 := by
      have hvalid2 : (c.val.toNat + 32).isValidChar := hvalid
      simp [Char.ofNat, Char.toNat]
      rw [dif_pos hvalid2]
      simp [Char.ofNatAux, UInt32.toNat]
    intro hcontra
    simp only [Bool.and_eq_true, decide_eq_true_eq] at hcontra
    obtain ⟨hc1, hc2⟩ := hcontra
    have : (Char.ofNat (c.toNat + 32)).toNat ≤ 90 := by
      simpa [Char.le_def] using hc2
    omega
  · rw [if_neg h, if_neg h]

/-- `strings.ToLower` is idempotent. -/
theorem toLowerStr_idem (l : List Char) : toLowerStr (toLowerStr l) = toLowerStr l := by
  simp [toLowerStr, List.map_map, Function.comp]
  induction l with
  | nil => simp
  | cons c cs ih => simp [lowerChar_idem, ih]

/-- `Registry.Canonical` is insensitive to pre-lowering its argument
(Go's `Canonical` lower-cases internally). -/
theorem canonical_toLower (r : Registry) (n : List Char) :
    r.canonical (toLowerStr n) = r.canonical n := by
  simp [Registry.canonical, toLowerStr_idem]

/-! ## Where errors carry their position -/

/-- Errors of the close tail carry the parser's position. -/
theorem parseOwnCloseGt_err_pos (p : Parser) (cn ws nm r2 : List Char) (n : Nat)
    (e : PwError) (h : parseOwnCloseGt p cn ws nm r2 = .closeErr n e) :
    e.errPos = some p.pos := by
  unfold parseOwnCloseGt at h
  repeat' (split at h)
  all_goals first
    | (simp only [CloseRes.closeErr.injEq] at h; rw [← h.2];
       simp [NewMalformedTagError, PwError.errPos])
    | simp at h

/-- Errors of the alias check carry the parser's position. -/
theorem parseOwnCloseName_err_pos (p : Parser) (el : Element) (ws nm r2 : List Char)
    (n : Nat) (e : PwError) (h : parseOwnCloseName p el ws nm r2 = .closeErr n e) :
    e.errPos = some p.pos := by
  unfold parseOwnCloseName at h
  simp only [] at h
  cases hcan : p.reg.canonical (toLowerStr nm) <;> rw [hcan] at h <;>
    repeat' (split at h)
  all_goals first
    | (exact parseOwnCloseGt_err_pos _ _ _ _ _ _ _ h)
    | simp at h

/-- Errors of `parseOwnClose` carry the parser's position at the call. -/
theorem parseOwnClose_err_pos (p : Parser) (data : List Char) (n : Nat) (e : PwError)
    (h : p.parseOwnClose data = .closeErr n e) : e.errPos = some p.pos := by
  unfold Parser.parseOwnClose at h
  repeat' (split at h)
  all_goals first
    | (exact parseOwnCloseName_err_pos _ _ _ _ _ _ _ h)
    | (simp only [CloseRes.closeErr.injEq] at h; rw [← h.2];
       simp [NewMalformedTagError, PwError.errPos])
    | simp at h

/-- Errors of the attribute loop carry the position given to it. -/
theorem parseAttrsF_err_pos (fuel : Nat) (pos : Position) (ctx nm : List Char)
    (attrs : AttrMap) (rem : List Char) (n : Nat) (e : PwError)
    (h : parseAttrsF fuel pos ctx nm attrs rem = .errTok n e) :
    e.errPos = some pos := by
  induction fuel generalizing attrs rem n e with
  | zero => simp [parseAttrsF] at h
  | succ fuel ih =>
    unfold parseAttrsF at h
    simp only [] at h
    repeat' (split at h)
    all_goals first
      | (simp only [TokResult.errTok.injEq] at h; rw [← h.2];
         simp [NewMalformedTagError, NewAttributeParsingError, PwError.errPos]; done)
      | (simp only [TokResult.errTok.injEq] at h; obtain ⟨h1, h2⟩ := h; subst h2;
         rename_i heqr
         exact ih _ _ _ _ heqr)
      | (simp at h; done)


/-- Errors of `parseTagToken` carry the position given to it (the
parser's position of the `<` that begins the tag). -/
theorem parseTagToken_err_pos (data : List Char) (pos : Position) (ctx : List Char)
    (n : Nat) (e : PwError) (h : parseTagToken data pos ctx = .errTok n e) :
    e.errPos = some pos := by
  unfold parseTagToken parseAttrs at h
  repeat' (split at h)
  all_goals first
    | (simp only [TokResult.errTok.injEq] at h; rw [← h.2];
       simp [NewMalformedTagError, NewAttributeParsingError, PwError.errPos]; done)
    | (simp only [TokResult.errTok.injEq] at h; obtain ⟨h1, h2⟩ := h; subst h2;
       rename_i heqr
       exact parseAttrsF_err_pos _ _ _ _ _ _ _ _ heqr)
    | (simp at h; done)

/-! ## The claims -/

/-- C10: registering a `SectionPlugin` whose name is the empty string
leaves the registry unchanged — `Canonical` resolves every name to the
same result before and after — and an empty alias string in a
registration is skipped. -/
theorem c10_register_empty_name_noop :
    (∀ (reg : Registry) (aliases : List (List Char)) (q : List Char),
      (reg.register ⟨[], aliases⟩).canonical q = reg.canonical q) ∧
    (∀ (reg : Registry) (name : List Char) (aliases : List (List Char)) (q : List Char),
      (reg.register ⟨name, [] :: aliases⟩).canonical q =
        (reg.register ⟨name, aliases⟩).canonical q) := by
  constructor
  · intro reg aliases q
    simp [Registry.register]
  · intro reg name aliases q
    by_cases h : name = []
    · simp [Registry.register, h]
    · simp [Registry.register, h]

/-- C9: processing a stream with a nil registry fails immediately with
the "nil registry" error: no event is emitted and the outcome does not
depend on the input chunks at all (nothing is read). -/
theorem c9_nil_registry (opts : EngineOptions) (vals : ValidatorRegistry)
    (chunks : List (List Char)) :
    processStream none opts vals chunks = ([], some .nilRegistry) := rfl

/-- C5: a well-formed closing tag arriving while no section is active.
In Continue mode the drain iteration just consumes the tag — the event
trace and the (absent) active section are unchanged, parsing goes on. In
Strict mode drain stops with an `UnmatchedTagError` carrying the closing
tag's name. -/
theorem c5_unmatched_closing_tag (p : Parser) (name rest : List Char)
    (hact : p.active = none) (hbuf : p.buf = '<' :: '/' :: (name ++ '>' :: rest))
    (hne : name ≠ []) (hall : ∀ x ∈ name, isNameChar x = true) :
    (p.recoveryMode = .continueMode →
      drainStep p = .next (p.consume (name.length + 3)) ∧
      (p.consume (name.length + 3)).events = p.events ∧
      (p.consume (name.length + 3)).active = none) ∧
    (p.recoveryMode = .strictMode →
      drainStep p = .stop (p.consume (name.length + 3))
        (some (NewUnmatchedTagError (p.consume (name.length + 3)).pos name
          (p.consume (name.length + 3)).lastContent))) := by
  have h := drainStep_unmatchedClose p name rest hact hbuf hall
  constructor
  · intro hm
    rw [hm] at h
    rw [if_neg (by decide)] at h
    exact ⟨h, rfl, hact⟩
  · intro hm
    rw [hm] at h
    rw [if_pos rfl] at h
    exact h

/-- C8: an open tag whose attribute key is followed (after optional
whitespace) by a byte other than `=` makes the tokenizer raise an
`AttributeParsingError` whose TagName is the tag's name and whose
AttributeName is the offending key. -/
theorem c8_attr_missing_equals (name ws1 key ws2 : List Char) (b : Char) (rest : List Char)
    (pos : Position) (ctx : List Char)
    (hne : name ≠ []) (hall : ∀ x ∈ name, isNameChar x = true)
    (hw1ne : ws1 ≠ []) (hws1 : ∀ x ∈ ws1, isSpace x = true)
    (hkne : key ≠ []) (hkey : ∀ x ∈ key, isAttrNameChar x = true)
    (hws2 : ∀ x ∈ ws2, isSpace x = true)
    (hb1 : isSpace b = false) (hb2 : isAttrNameChar b = false) (hb3 : b ≠ '=') :
    parseTagToken ('<' :: (name ++ ws1 ++ key ++ ws2 ++ b :: rest)) pos ctx =
      .errTok (1 + name.length + ws1.length + key.length + ws2.length)
        (NewAttributeParsingError pos name key "expected '=' after attribute name" ctx) :=
  parseTagToken_attrErr name ws1 key ws2 b rest pos ctx hne hall hw1ne hws1 hkne hkey
    hws2 hb1 hb2 hb3

/-- C7 (amended): every error surfaced by a drain iteration (with no
content validators installed) carries the parser's current position at
the moment the error is returned — the position of the first unconsumed
byte — not the position of the offending byte itself. -/
theorem c7_amended_error_position (p q : Parser) (e : PwError)
    (hval : p.validators = []) (h : drainStep p = .stop q (some e)) :
    e.errPos = some q.pos := by
  unfold drainStep at h
  simp only [] at h
  repeat' (split at h)
  all_goals
    first
      | (simp at h; done)
      | (simp only [Step.stop.injEq, Option.some.injEq] at h;
         obtain ⟨h1, h2⟩ := h; subst h1; subst h2;
         first
           | (exact parseOwnClose_err_pos _ _ _ _ (by assumption))
           | (exact parseTagToken_err_pos _ _ _ _ _ (by assumption))
           | (simp [NewUnmatchedTagError, PwError.errPos]; done))
      | (exfalso
         simp only [show ∀ (pp : Parser) (n : Nat), (pp.consume n).validators = pp.validators
             from fun _ _ => rfl, hval] at *
         simp_all [validateSection])

/-- C7 (counterexample): on `<think attr!>x` (with `think` registered,
strict mode) the attribute error is detected at the byte `!`, which sits
at line 1, column 12 of the input; yet the error carries position
line 1, column 1 — the position of the `<` opening the tag (the first
unconsumed byte), not the offending byte. -/
theorem c7_counterexample :
    (processStream (some (NewRegistry.register ⟨['t', 'h', 'i', 'n', 'k'], []⟩))
        DefaultEngineOptions [] [('<' :: ('t' :: 'h' :: 'i' :: 'n' :: 'k' :: ' ' :: 'a' :: 't' :: 't' :: 'r' :: '!' :: '>' :: 'x' :: []))]).2 =
      some (.attributeParsing ⟨⟨1, 1⟩, "expected '=' after attribute name", []⟩
        ['t', 'h', 'i', 'n', 'k'] ['a', 't', 't', 'r']) ∧
    (⟨1, 1⟩ : Position) ≠ ⟨1, 12⟩ := by
  constructor
  · decide
  · decide

/-- C2 (counterexample): with a custom handler that always returns
"continue" (strict mode default), input `<think>abc</>` raises a
malformed-close error inside the active `think` section; the handler
votes continue, yet the section is NOT abandoned: at end-of-stream it is
emitted, with the junk bytes `</>` inside its content — one event,
`think` with content `abc</>`. -/
theorem c2_counterexample :
    processStream (some (NewRegistry.register ⟨['t', 'h', 'i', 'n', 'k'], []⟩))
        (WithErrorHandler (fun _ => true)) []
        [('<' :: 't' :: 'h' :: 'i' :: 'n' :: 'k' :: '>' :: 'a' :: 'b' :: 'c' :: '<' :: '/' :: '>' :: [])] =
      ([⟨['t', 'h', 'i', 'n', 'k'], [], ['a', 'b', 'c', '<', '/', '>']⟩], none) := by
  decide

/-- C3: when the stream ends while a recognized section is still open
(the read loop finished with an active element), `finish` emits exactly
one event for it — the event trace grows by exactly the one event —
whose content is everything accumulated for the section: the body
gathered while draining plus all bytes still buffered at end-of-stream.
No error is reported. (The engine here has no content validators, the
default of `NewEngine`.) -/
theorem c3_forced_close_once (reg : Registry) (opts : EngineOptions)
    (chunks : List (List Char)) (p' : Parser) (el : Element)
    (hrun : runChunks chunks (newParser reg opts []) = (p', none))
    (hact : p'.active = some el) (hcanon : el.canon ≠ []) :
    processChunks chunks (newParser reg opts []) =
      ({ p' with
         buf := []
         active := none
         events := p'.events ++ [⟨el.canon, el.attrs, el.body ++ p'.buf⟩] }, none) := by
  have hvals : p'.validators = [] :=
    (runChunks_config chunks (newParser reg opts []) p' none hrun).2.2.2
  unfold processChunks
  rw [hrun]
  exact finish_forced p' el hact hcanon (by rw [hvals]; exact validateSection_nil _ _ _)

/-- C1 (code bug): chunk invariance fails at a chunk boundary that
splits right after a `<`. With `think` registered, the single-chunk run
of `<think>abc</think>` emits one event with content `abc`; the same
bytes split as `<think>abc<` then `/think>` emit one event with content
`abc</think>` — `parseOwnClose` classifies the lone trailing `<` as
complete non-close data (its `len(data) < 2` guard), so the closing tag
is swallowed into the body instead of closing the section. -/
theorem c1_chunk_boundary_bug :
    processStream (some (NewRegistry.register ⟨['t','h','i','n','k'], []⟩))
        DefaultEngineOptions []
        [('<' :: 't' :: 'h' :: 'i' :: 'n' :: 'k' :: '>' :: 'a' :: 'b' :: 'c' :: '<' :: '/' :: 't' :: 'h' :: 'i' :: 'n' :: 'k' :: '>' :: [])] =
      ([⟨['t','h','i','n','k'], [], ['a','b','c']⟩], none) ∧
    processStream (some (NewRegistry.register ⟨['t','h','i','n','k'], []⟩))
        DefaultEngineOptions []
        [('<' :: 't' :: 'h' :: 'i' :: 'n' :: 'k' :: '>' :: 'a' :: 'b' :: 'c' :: '<' :: []),
         ('/' :: 't' :: 'h' :: 'i' :: 'n' :: 'k' :: '>' :: [])] =
      ([⟨['t','h','i','n','k'], [], ['a','b','c','<','/','t','h','i','n','k','>']⟩], none) := by
  constructor
  · decide
  · decide

/-- C4: opening with one alias and closing with another alias of the same
canonical name emits exactly one event named by the canonical name, whose
content is exactly the body between the tags. -/
theorem c4_alias_open_close (reg : Registry) (opts : EngineOptions)
    (a1 a2 body c : List Char)
    (ha1ne : a1 ≠ []) (ha1 : ∀ x ∈ a1, isNameChar x = true)
    (ha2ne : a2 ≠ []) (ha2 : ∀ x ∈ a2, isNameChar x = true)
    (hb : ∀ x ∈ body, x ≠ '<')
    (hcan1 : reg.canonical a1 = some c) (hcan2 : reg.canonical a2 = some c) :
    processStream (some reg) opts []
      ['<' :: (a1 ++ '>' :: (body ++ '<' :: '/' :: (a2 ++ ['>'])))] =
      ([⟨c, [], body⟩], none) := by
  cases body with
  | nil =>
    simp only [List.nil_append]
    have hstep1 := drainStep_openTag ((newParser reg opts []).feed
        ('<' :: (a1 ++ '>' :: ('<' :: '/' :: (a2 ++ ['>']))))) a1
        ('<' :: '/' :: (a2 ++ ['>'])) c rfl rfl ha1ne ha1 hcan1
    have hq1buf : ({ ((newParser reg opts []).feed
        ('<' :: (a1 ++ '>' :: ('<' :: '/' :: (a2 ++ ['>']))))).consume (a1.length + 2) with
        active := some (⟨a1, c, [], []⟩ : Element) } : Parser).buf =
        '<' :: '/' :: (a2 ++ '>' :: []) := by
      show List.drop (a1.length + 2)
        ('<' :: (a1 ++ '>' :: ('<' :: '/' :: (a2 ++ ['>'])))) = _
      rw [show '<' :: (a1 ++ '>' :: ('<' :: '/' :: (a2 ++ ['>']))) =
            ('<' :: a1 ++ ['>']) ++ ('<' :: '/' :: (a2 ++ ['>'])) from by simp]
      rw [show a1.length + 2 = ('<' :: a1 ++ ['>']).length from by simp]
      exact List.drop_left _ _
    have hstep2 := drainStep_closeTag ({ ((newParser reg opts []).feed
        ('<' :: (a1 ++ '>' :: ('<' :: '/' :: (a2 ++ ['>']))))).consume (a1.length + 2) with
        active := some (⟨a1, c, [], []⟩ : Element) } : Parser) ⟨a1, c, [], []⟩ a2 [] rfl
        hq1buf ha2ne ha2 (by rw [canonical_toLower]; exact hcan2) rfl
    have hq2buf : (({ ((newParser reg opts []).feed
        ('<' :: (a1 ++ '>' :: ('<' :: '/' :: (a2 ++ ['>']))))).consume (a1.length + 2) with
        active := some (⟨a1, c, [], []⟩ : Element) } : Parser).consume (a2.length + 3)).buf =
        [] := by
      show List.drop (a2.length + 3) (({ ((newParser reg opts []).feed
        ('<' :: (a1 ++ '>' :: ('<' :: '/' :: (a2 ++ ['>']))))).consume (a1.length + 2) with
        active := some (⟨a1, c, [], []⟩ : Element) } : Parser).buf) = []
      rw [hq1buf]
      apply List.drop_eq_nil_of_le
      simp
    have hd := (drain_eq_of_next _ _ hstep1).trans
      ((drain_eq_of_next _ _ hstep2).trans (drain_nil _ hq2buf))
    simp only [processStream, processChunks, runChunks]
    rw [hd]
    simp only []
    rw [finish_idle _ rfl]
    simp [Parser.consume, Parser.feed, newParser, Parser.withBody]
  | cons b0 bs =>
    have hstep1 := drainStep_openTag ((newParser reg opts []).feed
        ('<' :: (a1 ++ '>' :: ((b0 :: bs) ++ '<' :: '/' :: (a2 ++ ['>']))))) a1
        ((b0 :: bs) ++ '<' :: '/' :: (a2 ++ ['>'])) c rfl rfl ha1ne ha1 hcan1
    have hq1buf : ({ ((newParser reg opts []).feed
        ('<' :: (a1 ++ '>' :: ((b0 :: bs) ++ '<' :: '/' :: (a2 ++ ['>']))))).consume
          (a1.length + 2) with
        active := some (⟨a1, c, [], []⟩ : Element) } : Parser).buf =
        (b0 :: bs) ++ '<' :: ('/' :: (a2 ++ ['>'])) := by
      show List.drop (a1.length + 2)
        ('<' :: (a1 ++ '>' :: ((b0 :: bs) ++ '<' :: '/' :: (a2 ++ ['>'])))) = _
      rw [show '<' :: (a1 ++ '>' :: ((b0 :: bs) ++ '<' :: '/' :: (a2 ++ ['>']))) =
            ('<' :: a1 ++ ['>']) ++ ((b0 :: bs) ++ '<' :: '/' :: (a2 ++ ['>'])) from by simp]
      rw [show a1.length + 2 = ('<' :: a1 ++ ['>']).length from by simp]
      exact List.drop_left _ _
    have hstep2 := drainStep_bodyText ({ ((newParser reg opts []).feed
        ('<' :: (a1 ++ '>' :: ((b0 :: bs) ++ '<' :: '/' :: (a2 ++ ['>']))))).consume
          (a1.length + 2) with
        active := some (⟨a1, c, [], []⟩ : Element) } : Parser) ⟨a1, c, [], []⟩ (b0 :: bs)
        ('/' :: (a2 ++ ['>'])) rfl hq1buf (by simp) (by exact hb)
    have hq2buf : ((({ ((newParser reg opts []).feed
        ('<' :: (a1 ++ '>' :: ((b0 :: bs) ++ '<' :: '/' :: (a2 ++ ['>']))))).consume
          (a1.length + 2) with
        active := some (⟨a1, c, [], []⟩ : Element) } : Parser).withBody ⟨a1, c, [], []⟩
          (b0 :: bs)).consume (b0 :: bs).length).buf =
        '<' :: '/' :: (a2 ++ '>' :: []) := by
      show List.drop (b0 :: bs).length (({ ((newParser reg opts []).feed
        ('<' :: (a1 ++ '>' :: ((b0 :: bs) ++ '<' :: '/' :: (a2 ++ ['>']))))).consume
          (a1.length + 2) with
        active := some (⟨a1, c, [], []⟩ : Element) } : Parser).buf) = _
      rw [hq1buf]
      exact List.drop_left _ _
    have hstep3 := drainStep_closeTag ((({ ((newParser reg opts []).feed
        ('<' :: (a1 ++ '>' :: ((b0 :: bs) ++ '<' :: '/' :: (a2 ++ ['>']))))).consume
          (a1.length + 2) with
        active := some (⟨a1, c, [], []⟩ : Element) } : Parser).withBody ⟨a1, c, [], []⟩
          (b0 :: bs)).consume (b0 :: bs).length) ⟨a1, c, [], b0 :: bs⟩ a2 [] rfl
        hq2buf ha2ne ha2 (by rw [canonical_toLower]; exact hcan2) rfl
    have hq3buf : (((({ ((newParser reg opts []).feed
        ('<' :: (a1 ++ '>' :: ((b0 :: bs) ++ '<' :: '/' :: (a2 ++ ['>']))))).consume
          (a1.length + 2) with
        active := some (⟨a1, c, [], []⟩ : Element) } : Parser).withBody ⟨a1, c, [], []⟩
          (b0 :: bs)).consume (b0 :: bs).length).consume (a2.length + 3)).buf = [] := by
      show List.drop (a2.length + 3) (((({ ((newParser reg opts []).feed
        ('<' :: (a1 ++ '>' :: ((b0 :: bs) ++ '<' :: '/' :: (a2 ++ ['>']))))).consume
          (a1.length + 2) with
        active := some (⟨a1, c, [], []⟩ : Element) } : Parser).withBody ⟨a1, c, [], []⟩
          (b0 :: bs)).consume (b0 :: bs).length).buf) = []
      rw [hq2buf]
      apply List.drop_eq_nil_of_le
      simp
    have hd := (drain_eq_of_next _ _ hstep1).trans
      ((drain_eq_of_next _ _ hstep2).trans
        ((drain_eq_of_next _ _ hstep3).trans (drain_nil _ hq3buf)))
    simp only [processStream, processChunks, runChunks]
    rw [hd]
    simp only []
    rw [finish_idle _ rfl]
    simp [Parser.consume, Parser.feed, newParser, Parser.withBody]

theorem c5_unmatched_closing_tag_witness :
    drainStep wpIdleCont = .next (wpIdleCont.consume 8) ∧
    (wpIdleCont.consume 8).events = wpIdleCont.events ∧
    (wpIdleCont.consume 8).active = none :=
  (c5_unmatched_closing_tag wpIdleCont ['t','h','i','n','k'] [] rfl rfl (by decide)
    (by decide)).1 rfl

theorem c8_attr_missing_equals_witness :
    parseTagToken ('<' :: (['t','h','i','n','k'] ++ [' '] ++ ['a','t','t','r'] ++ [] ++
        '!' :: ('>' :: 'x' :: []))) ⟨1, 1⟩ [] =
      .errTok 11 (NewAttributeParsingError ⟨1, 1⟩ ['t','h','i','n','k'] ['a','t','t','r']
        "expected '=' after attribute name" []) :=
  c8_attr_missing_equals ['t','h','i','n','k'] [' '] ['a','t','t','r'] [] '!' ('>' :: 'x' :: [])
    ⟨1, 1⟩ [] (by decide) (by decide) (by decide) (by decide) (by decide) (by decide)
    (by decide) (by decide) (by decide) (by decide)

theorem c7_amended_error_position_witness :
    weUnmatched.errPos = some wqIdleStrict.pos :=
  c7_amended_error_position wpIdleStrict wqIdleStrict weUnmatched rfl rfl

theorem c3_forced_close_once_witness :
    processChunks [('<' :: 't' :: 'h' :: 'i' :: 'n' :: 'k' :: '>' :: 'a' :: 'b' :: 'c' :: [])]
        (newParser wregThink DefaultEngineOptions []) =
      ({ wpOpenThink with
         buf := []
         active := none
         events := wpOpenThink.events ++
           [⟨['t','h','i','n','k'], [], ['a','b','c'] ++ wpOpenThink.buf⟩] }, none) :=
  c3_forced_close_once wregThink DefaultEngineOptions
    [('<' :: 't' :: 'h' :: 'i' :: 'n' :: 'k' :: '>' :: 'a' :: 'b' :: 'c' :: [])] wpOpenThink
    ⟨['t','h','i','n','k'], ['t','h','i','n','k'], [], ['a','b','c']⟩ rfl rfl (by decide)

theorem c4_alias_open_close_witness :
    processStream (some wregThinkReason) DefaultEngineOptions []
      ['<' :: (['t','h','i','n','k'] ++ '>' :: (['a','b','c'] ++ '<' :: '/' ::
        (['r','e','a','s','o','n'] ++ ['>'])))] =
      ([⟨['t','h','i','n','k'], [], ['a','b','c']⟩], none) :=
  c4_alias_open_close wregThinkReason DefaultEngineOptions ['t','h','i','n','k']
    ['r','e','a','s','o','n'] ['a','b','c'] ['t','h','i','n','k'] (by decide) (by decide)
    (by decide) (by decide) (by decide) (by decide) (by decide)

/-- C2 (amended): a validation failure at a section's closing tag that is
handled as "continue" — under Continue mode with no custom handler, or by
a custom handler returning true (any mode) — abandons the section: the
closing tag is consumed, the active element is dropped and no event is
emitted, and the drain loop continues just past the point of failure.
Under Continue mode with no custom handler this covers every possible
drain error with a section in progress: such a drain never surfaces an
error to the caller at all. -/
theorem c2_amended_validation_abandons :
    (∀ (p : Parser) (el : Element) (u : List Char) (n : Nat) (e : PwError),
      p.recoveryMode = .continueMode → p.errorHandler = none →
      p.active = some el → p.buf = '<' :: '/' :: u →
      p.parseOwnClose p.buf = .closeOk n →
      validateSection (p.consume n).validators el.canon el.body (p.consume n).pos = some e →
      drainStep p = .next { p.consume n with active := none }) ∧
    (∀ (p : Parser) (el : Element) (u : List Char) (n : Nat) (e : PwError)
      (h : PwError → Bool),
      p.errorHandler = some h → h e = true →
      p.active = some el → p.buf = '<' :: '/' :: u →
      p.parseOwnClose p.buf = .closeOk n →
      validateSection (p.consume n).validators el.canon el.body (p.consume n).pos = some e →
      drainStep p = .next { p.consume n with active := none }) ∧
    (∀ (p q : Parser) (oe : Option PwError),
      p.recoveryMode = .continueMode → p.errorHandler = none →
      drainStep p = .stop q oe → oe = none) := by
  refine ⟨?_, ?_, ?_⟩
  · intro p el u n e hmode heh hact hbuf hclose hvalfail
    obtain ⟨reg, buf, act, pos, rm, eh, vals, lc, evs⟩ := p
    simp only [] at hmode heh hact hbuf hclose hvalfail
    subst hmode heh hact hbuf
    unfold drainStep
    simp only []
    rw [show bytesIndexOf '<' ('<' :: '/' :: u) = some 0 from by simp [bytesIndexOf]]
    rw [hclose]
    simp only [Parser.consume] at hvalfail ⊢
    rw [hvalfail]
    simp only []
    rw [if_neg (by decide)]
  · intro p el u n e h heh htrue hact hbuf hclose hvalfail
    obtain ⟨reg, buf, act, pos, rm, eh, vals, lc, evs⟩ := p
    simp only [] at heh hact hbuf hclose hvalfail
    subst heh hact hbuf
    unfold drainStep
    simp only []
    rw [show bytesIndexOf '<' ('<' :: '/' :: u) = some 0 from by simp [bytesIndexOf]]
    rw [hclose]
    simp only [Parser.consume] at hvalfail ⊢
    rw [hvalfail]
    simp only []
    rw [if_pos htrue]
  · intro p q oe hmode heh h
    obtain ⟨reg, buf, act, pos, rm, eh, vals, lc, evs⟩ := p
    simp only [] at hmode heh h
    subst hmode heh
    unfold drainStep at h
    simp only [] at h
    repeat' (split at h)
    all_goals
      first
        | (simp at h; simp [← h.2])
        | skip
    all_goals exfalso
    all_goals simp_all [Parser.consume]

theorem c2_amended_validation_abandons_witness :
    drainStep wpCloseBadVal = .next { wpCloseBadVal.consume 8 with active := none } ∧
    drainStep wpCloseBadValH = .next { wpCloseBadValH.consume 8 with active := none } ∧
    (none : Option PwError) = none :=
  ⟨c2_amended_validation_abandons.1 wpCloseBadVal
      ⟨['t','h','i','n','k'], ['t','h','i','n','k'], [], ['a','b','c']⟩
      ('t' :: 'h' :: 'i' :: 'n' :: 'k' :: '>' :: []) 8
      (PwError.validation ⟨⟨1,1⟩, "bad", []⟩ ['t','h','i','n','k'])
      rfl rfl rfl rfl rfl rfl,
   c2_amended_validation_abandons.2.1 wpCloseBadValH
      ⟨['t','h','i','n','k'], ['t','h','i','n','k'], [], ['a','b','c']⟩
      ('t' :: 'h' :: 'i' :: 'n' :: 'k' :: '>' :: []) 8
      (PwError.validation ⟨⟨1,1⟩, "bad", []⟩ ['t','h','i','n','k'])
      (fun _ => true) rfl rfl rfl rfl rfl rfl,
   c2_amended_validation_abandons.2.2 wpDone wpDone none rfl rfl rfl⟩

/-- C6 (amended): one drain iteration on any parser whose buffer starts
with a self-closing tag. With no section active, a tag whose name
resolves in the registry yields exactly one `SectionEvent` with the
canonical name and empty content, and a tag whose name does not resolve
yields no event — in both cases the tag is consumed and parsing goes on.
With a section active, the tag is not a tag at all: its leading `<` is
literal body text, the event trace is unchanged and the section stays
active (no event is ever produced for it). -/
theorem c6_amended_selfclosing (p : Parser) (name rest : List Char)
    (hbuf : p.buf = '<' :: (name ++ '/' :: '>' :: rest))
    (hne : name ≠ []) (hall : ∀ x ∈ name, isNameChar x = true) :
    (p.active = none → ∀ c, p.reg.canonical name = some c →
      drainStep p = .next { p.consume (name.length + 3) with
        events := p.events ++ [⟨c, [], []⟩] }) ∧
    (p.active = none → p.reg.canonical name = none →
      drainStep p = .next (p.consume (name.length + 3))) ∧
    (∀ el, p.active = some el →
      drainStep p = .next ((p.withBody el ['<']).consume 1) ∧
      ((p.withBody el ['<']).consume 1).events = p.events ∧
      ((p.withBody el ['<']).consume 1).active =
        some { el with body := el.body ++ ['<'] }) := by
  refine ⟨?_, ?_, ?_⟩
  · intro hact c hcan
    exact drainStep_selfCloseTag p name rest c hact hbuf hne hall hcan
  · intro hact hcan
    exact drainStep_selfCloseTagUnknown p name rest hact hbuf hne hall hcan
  · intro el hact
    refine ⟨?_, rfl, rfl⟩
    cases name with
    | nil => exact absurd rfl hne
    | cons n0 nt =>
      have hn0 : n0 ≠ '/' :=
        class_ne (hall n0 (by simp)) (show isNameChar '/' = false by decide)
      obtain ⟨reg, buf, act, pos, rm, eh, vals, lc, evs⟩ := p
      simp only [] at hact hbuf
      subst hact hbuf
      rw [show ('<' :: ((n0 :: nt) ++ '/' :: '>' :: rest)) =
            '<' :: n0 :: (nt ++ '/' :: '>' :: rest) from by simp]
      unfold drainStep
      simp only []
      rw [show bytesIndexOf '<' ('<' :: n0 :: (nt ++ '/' :: '>' :: rest)) = some 0 from by
            simp [bytesIndexOf]]
      rw [show Parser.parseOwnClose ⟨reg, '<' :: n0 :: (nt ++ '/' :: '>' :: rest), some el,
            pos, rm, eh, vals, lc, evs⟩ ('<' :: n0 :: (nt ++ '/' :: '>' :: rest)) =
            CloseRes.notClose from by
            unfold Parser.parseOwnClose
            simp only []
            rw [if_pos (Or.inr hn0)]]
      rw [if_neg (by
            intro hcon
            exact hn0 (by simpa using hcon.2))]

theorem c6_amended_selfclosing_witness :
    drainStep wpSelfCloseIdle = .next { wpSelfCloseIdle.consume 8 with
      events := wpSelfCloseIdle.events ++ [⟨['t','h','i','n','k'], [], []⟩] } ∧
    drainStep wpSelfCloseIn =
      .next ((wpSelfCloseIn.withBody ⟨['t','h','i','n','k'], ['t','h','i','n','k'], [],
        ['a']⟩ ['<']).consume 1) :=
  ⟨(c6_amended_selfclosing wpSelfCloseIdle ['t','h','i','n','k'] [] rfl (by decide)
      (by decide)).1 rfl ['t','h','i','n','k'] (by decide),
   ((c6_amended_selfclosing wpSelfCloseIn ['t','h','i','n','k'] [] rfl (by decide)
      (by decide)).2.2 ⟨['t','h','i','n','k'], ['t','h','i','n','k'], [], ['a']⟩ rfl).1⟩

/-- C6 (counterexample): a recognized self-closing tag arriving inside
an active section yields no event of its own. On
`<think>a<think/>b</think>` (with `think` registered) the whole run
emits exactly one event — the enclosing `think` section — and the
self-closing tag's spelling `<think/>` sits verbatim inside its content. -/
theorem c6_counterexample :
    processStream (some (NewRegistry.register ⟨['t','h','i','n','k'], []⟩))
        DefaultEngineOptions []
        [('<' :: 't' :: 'h' :: 'i' :: 'n' :: 'k' :: '>' :: 'a' :: '<' :: 't' :: 'h' ::
          'i' :: 'n' :: 'k' :: '/' :: '>' :: 'b' :: '<' :: '/' :: 't' :: 'h' :: 'i' ::
          'n' :: 'k' :: '>' :: [])] =
      ([⟨['t','h','i','n','k'], [],
         ['a','<','t','h','i','n','k','/','>','b']⟩], none) := by
  decide
